import Mathlib

/-!
# Verification of the goal-tracker undo/redo command engine

Shallow embedding of the repository's undo/redo subsystem:

* `src/lib/db.ts` — the day-record store (notes and checklist items keyed by
  date), embedded as pure functions over an association list.  The wall-clock
  bookkeeping fields `createdAt`/`updatedAt`/`lastModified` and the redundant
  `DayData.date` field are elided (environmental wall-clock state); `id`
  generation (`crypto.randomUUID()`) is embedded as a fresh-`Nat` counter
  carried in the store.
* `src/lib/commands.ts` — the command catalog (`AddNoteCommand`,
  `EditNoteCommand`, `DeleteNoteCommand`, `AddChecklistItemCommand`,
  `EditChecklistItemCommand`, `ToggleChecklistItemCommand`,
  `DeleteChecklistItemCommand`, `ReorderChecklistCommand`), embedded as an
  inductive `GCmd` whose execute/undo run against the store; the in-place
  mutation of command fields during `execute()` (captured snapshots, generated
  ids) is embedded by `execute` returning the updated command.
  `BatchCommand` (a composite folding the above) is not needed by any claim
  and is omitted.
* `src/lib/undoRedo.ts` — the `HistoryManager` state machine
  (`executeCommand` / `undo` / `redo`), embedded generically over an abstract
  command interface `CmdOps`, exactly as the source is written against the
  `Command` interface.  Whether `this.saveHistory()` throws is an input
  (`persistThrows`): in the source it throws precisely when re-serialization
  fails, and the spec's persistence-failure properties quantify over that
  outcome.  Thrown JS errors are embedded as the `UErr` inductive, with
  `UErr.external` standing for any non-engine `Error` thrown by the
  underlying store or serializer.
-/

/-! ## Day-record store (`db.ts`) -/

structure Note where
  id : Nat
  content : String
deriving DecidableEq, Repr

structure ChecklistItem where
  id : Nat
  text : String
  completed : Bool
  order : Nat
deriving DecidableEq, Repr

structure DayData where
  notes : List Note
  checklist : List ChecklistItem
deriving DecidableEq, Repr

/-- The whole store: days keyed by date string, plus the fresh-id counter that
stands in for `crypto.randomUUID()`. -/
structure DB where
  days : List (String × DayData)
  nextId : Nat
deriving DecidableEq, Repr

def findDay : List (String × DayData) → String → Option DayData
  | [], _ => none
  | (k, v) :: rest, key => if k = key then some v else findDay rest key

def setDay : List (String × DayData) → String → DayData → List (String × DayData)
  | [], key, v => [(key, v)]
  | (k, w) :: rest, key, v =>
    if k = key then (key, v) :: rest else (k, w) :: setDay rest key v

/-- Stable insertion step for the checklist sort: mirrors the ascending, stable
JS `Array.prototype.sort((a, b) => a.order - b.order)`. -/
def insertByOrder (x : ChecklistItem) : List ChecklistItem → List ChecklistItem
  | [] => [x]
  | y :: ys => if x.order ≤ y.order then x :: y :: ys else y :: insertByOrder x ys

def sortByOrder : List ChecklistItem → List ChecklistItem
  | [] => []
  | x :: xs => insertByOrder x (sortByOrder xs)

/-- The checklist normalization `getDayData` performs on every read (the
`order ?? index` default never fires here because embedded items always carry
an `order`). -/
def normalizeDay (d : DayData) : DayData :=
  { d with checklist := sortByOrder d.checklist }

/-- `getDayData`: reads return a normalized copy; the store itself is not
written (IndexedDB read semantics). -/
def getDayData (db : DB) (date : String) : Option DayData :=
  (findDay db.days date).map normalizeDay

/-- `saveDayData` (the `updatedAt` stamp is elided). -/
def saveDayData (db : DB) (date : String) (d : DayData) : DB :=
  { db with days := setDay db.days date d }

def createEmptyDayData (db : DB) (date : String) : DB × DayData :=
  (saveDayData db date ⟨[], []⟩, ⟨[], []⟩)

def addNote (db : DB) (date : String) (content : String) : DB × Note :=
  let (db1, dayData) :=
    match getDayData db date with
    | some d => (db, d)
    | none => createEmptyDayData db date
  let note : Note := ⟨db1.nextId, content⟩
  let db2 : DB := { db1 with nextId := db1.nextId + 1 }
  (saveDayData db2 date { dayData with notes := dayData.notes ++ [note] }, note)

/-- `find` + in-place mutation updates only the first matching note. -/
def updateFirstNote (noteId : Nat) (f : Note → Note) : List Note → List Note
  | [] => []
  | n :: ns =>
    if n.id = noteId then f n :: ns else n :: updateFirstNote noteId f ns

def updateNote (db : DB) (date : String) (noteId : Nat) (content : String) : DB :=
  match getDayData db date with
  | none => db
  | some d =>
    if d.notes.any (fun n => n.id = noteId) then
      saveDayData db date
        { d with notes := updateFirstNote noteId (fun n => { n with content := content }) d.notes }
    else db

def deleteNote (db : DB) (date : String) (noteId : Nat) : DB :=
  match getDayData db date with
  | none => db
  | some d => saveDayData db date { d with notes := d.notes.filter (fun n => n.id ≠ noteId) }

def maxOrder (l : List ChecklistItem) : Nat :=
  l.foldr (fun i m => max i.order m) 0

def addChecklistItem (db : DB) (date : String) (text : String) : DB × ChecklistItem :=
  let (db1, dayData) :=
    match getDayData db date with
    | some d => (db, d)
    | none => createEmptyDayData db date
  let ord : Nat := match dayData.checklist with
    | [] => 0
    | _ => maxOrder dayData.checklist + 1
  let item : ChecklistItem := ⟨db1.nextId, text, false, ord⟩
  let db2 : DB := { db1 with nextId := db1.nextId + 1 }
  (saveDayData db2 date { dayData with checklist := sortByOrder (dayData.checklist ++ [item]) },
   item)

/-- The `Partial<Pick<ChecklistItem, 'text' | 'completed'>>` updates object. -/
structure ItemUpdates where
  text : Option String := none
  completed : Option Bool := none
deriving DecidableEq, Repr

def applyUpdates (u : ItemUpdates) (i : ChecklistItem) : ChecklistItem :=
  { i with text := u.text.getD i.text, completed := u.completed.getD i.completed }

def updateFirstItem (itemId : Nat) (f : ChecklistItem → ChecklistItem) :
    List ChecklistItem → List ChecklistItem
  | [] => []
  | i :: is =>
    if i.id = itemId then f i :: is else i :: updateFirstItem itemId f is

def updateChecklistItem (db : DB) (date : String) (itemId : Nat) (u : ItemUpdates) : DB :=
  match getDayData db date with
  | none => db
  | some d =>
    if d.checklist.any (fun i => i.id = itemId) then
      saveDayData db date { d with checklist := updateFirstItem itemId (applyUpdates u) d.checklist }
    else db

/-- `new Map(checklist.map(item => [item.id, item]))`: on duplicate ids the
last occurrence wins. -/
def itemMapGet (l : List ChecklistItem) (id : Nat) : Option ChecklistItem :=
  l.foldl (fun acc i => if i.id = id then some i else acc) none

def reorderChecklistItems (db : DB) (date : String) (itemIds : List Nat) : DB :=
  match getDayData db date with
  | none => db
  | some d =>
    let reordered : List ChecklistItem :=
      (itemIds.enum).filterMap
        (fun p => (itemMapGet d.checklist p.2).map (fun i => { i with order := p.1 }))
    saveDayData db date { d with checklist := reordered }

def deleteChecklistItem (db : DB) (date : String) (itemId : Nat) : DB :=
  match getDayData db date with
  | none => db
  | some d => saveDayData db date { d with checklist := d.checklist.filter (fun i => i.id ≠ itemId) }

/-! ## Command catalog (`commands.ts`)

Each variant carries the fields the class stores; `Option` fields are the
snapshots the source fills in during `execute()` (initially `null`). -/

inductive GCmdData where
  | addNoteCmd (content : String) (noteId : Option Nat)
  | editNote (noteId : Nat) (oldContent newContent : String)
  | deleteNoteCmd (noteId : Nat) (deletedNote : Option Note)
  | addItemCmd (text : String) (itemId : Option Nat)
  | editItem (itemId : Nat) (oldText newText : String)
  | toggleItem (itemId : Nat)
  | deleteItemCmd (itemId : Nat) (deletedItem : Option ChecklistItem)
  | reorderCmd (newOrder : List Nat) (oldOrder : List Nat)
deriving DecidableEq, Repr

/-- A catalog command: the `BaseCommand` fields that matter to the engine
(the opaque `id` is unused by the engine and elided), plus the
variant-specific data. -/
structure GCmd where
  dateKey : String
  timestamp : Int
  data : GCmdData
deriving DecidableEq, Repr

def GCmdData.typeTag : GCmdData → String
  | .addNoteCmd .. => "add-note"
  | .editNote .. => "edit-note"
  | .deleteNoteCmd .. => "delete-note"
  | .addItemCmd .. => "add-checklist-item"
  | .editItem .. => "edit-checklist-item"
  | .toggleItem .. => "toggle-checklist-item"
  | .deleteItemCmd .. => "delete-checklist-item"
  | .reorderCmd .. => "reorder-checklist"

/-- `execute()`.  Returns the updated store and the updated command (the
source mutates `this` to record generated ids / captured snapshots). -/
def GCmd.executeRun (c : GCmd) (db : DB) : DB × GCmd :=
  match c.data with
  | .addNoteCmd content _ =>
    let (db1, note) := addNote db c.dateKey content
    (db1, { c with data := .addNoteCmd content (some note.id) })
  | .editNote nid _ newC => (updateNote db c.dateKey nid newC, c)
  | .deleteNoteCmd nid _ =>
    let snap := (getDayData db c.dateKey).bind (fun d => d.notes.find? (fun n => n.id = nid))
    (deleteNote db c.dateKey nid, { c with data := .deleteNoteCmd nid snap })
  | .addItemCmd text _ =>
    let (db1, item) := addChecklistItem db c.dateKey text
    (db1, { c with data := .addItemCmd text (some item.id) })
  | .editItem iid _ newT =>
    (updateChecklistItem db c.dateKey iid { text := some newT }, c)
  | .toggleItem iid =>
    match (getDayData db c.dateKey).bind (fun d => d.checklist.find? (fun i => i.id = iid)) with
    | some item =>
      (updateChecklistItem db c.dateKey iid { completed := some (!item.completed) }, c)
    | none => (db, c)
  | .deleteItemCmd iid _ =>
    let snap := (getDayData db c.dateKey).bind (fun d => d.checklist.find? (fun i => i.id = iid))
    (deleteChecklistItem db c.dateKey iid, { c with data := .deleteItemCmd iid snap })
  | .reorderCmd newOrder oldOrder =>
    let oldOrder1 := match getDayData db c.dateKey with
      | some d => (sortByOrder d.checklist).map (fun i => i.id)
      | none => oldOrder
    (reorderChecklistItems db c.dateKey newOrder,
     { c with data := .reorderCmd newOrder oldOrder1 })

/-- `undo()`.  No catalog command mutates its own fields during `undo`. -/
def GCmd.undoRun (c : GCmd) (db : DB) : DB :=
  match c.data with
  | .addNoteCmd _ noteId =>
    match noteId with
    | some nid => deleteNote db c.dateKey nid
    | none => db
  | .editNote nid oldC _ => updateNote db c.dateKey nid oldC
  | .deleteNoteCmd _ snap =>
    match snap with
    | some n => (addNote db c.dateKey n.content).1
    | none => db
  | .addItemCmd _ itemId =>
    match itemId with
    | some iid => deleteChecklistItem db c.dateKey iid
    | none => db
  | .editItem iid oldT _ => updateChecklistItem db c.dateKey iid { text := some oldT }
  | .toggleItem iid =>
    match (getDayData db c.dateKey).bind (fun d => d.checklist.find? (fun i => i.id = iid)) with
    | some item =>
      (updateChecklistItem db c.dateKey iid { completed := some (!item.completed) })
    | none => db
  | .deleteItemCmd _ snap =>
    match snap with
    | some item =>
      let (db1, newItem) := addChecklistItem db c.dateKey item.text
      if item.completed then
        updateChecklistItem db1 c.dateKey newItem.id { completed := some true }
      else db1
    | none => db
  | .reorderCmd _ oldOrder =>
    if oldOrder.length > 0 then reorderChecklistItems db c.dateKey oldOrder else db

/-- `merge(other)`.  `cur` is the receiver (`this`); in
`HistoryManager.executeCommand` the call is `command.merge(lastCommand)`, so
`cur` is the NEW command and `other` the top-of-undo-stack predecessor.
The per-class windows (2000ms notes / 1500ms checklist / 500ms reorder) and
the built result mirror `commands.ts` verbatim, including which side's
old/new state and timestamp are used.  Variants without their own `merge`
inherit `BaseCommand.merge`, which returns `null`. -/
def GCmd.mergeWith (cur other : GCmd) : Option GCmd :=
  match cur.data, other.data with
  | .editNote nid oldC _newC, .editNote onid _ooldC onewC =>
    if onid = nid ∧ other.timestamp - cur.timestamp < 2000 then
      some { dateKey := cur.dateKey, timestamp := other.timestamp,
             data := .editNote nid oldC onewC }
    else none
  | .editItem iid oldT _newT, .editItem oiid _ooldT onewT =>
    if oiid = iid ∧ other.timestamp - cur.timestamp < 1500 then
      some { dateKey := cur.dateKey, timestamp := other.timestamp,
             data := .editItem iid oldT onewT }
    else none
  | .reorderCmd _curNew curOld, .reorderCmd otherNew _otherOld =>
    if other.timestamp - cur.timestamp < 500 then
      some { dateKey := cur.dateKey, timestamp := other.timestamp,
             data := .reorderCmd otherNew curOld }
    else none
  | _, _ => none

/-! ## History manager (`undoRedo.ts`) -/

/-- The runtime configuration (`UndoRedoConfig` / `globalConfig`). -/
structure UndoRedoConfig where
  maxHistorySize : Nat
  enablePersistence : Bool
  mergeTimeWindow : Int
  enableOptimisticUpdates : Bool
deriving DecidableEq, Repr

def defaultConfig : UndoRedoConfig :=
  { maxHistorySize := 100, enablePersistence := true,
    mergeTimeWindow := 1000, enableOptimisticUpdates := true }

/-- Thrown errors.  `external` is any `Error` coming from outside the engine
(the store rejecting, or serialization failing inside `saveHistory`);
`undoRedo` is the plain `UndoRedoError` (the busy rejection);
`persistenceFailed`/`commandExecution` carry their `cause`. -/
inductive UErr where
  | undoRedo
  | external
  | persistenceFailed (cause : UErr)
  | commandExecution (cause : UErr)
deriving DecidableEq, Repr

/-- The `Command` interface as `HistoryManager` consumes it: type tag, date
key, timestamp, execute/undo over a store of type `σ` (`none` = the returned
promise rejected; a successful run returns the new store and the command with
its in-place mutations applied), `merge` (receiver first, as in
`command.merge(lastCommand)`), and whether a `merge` method exists at all
(the `command.merge &&` truthiness test). -/
structure CmdOps (σ C : Type) where
  tag : C → String
  dkey : C → String
  ts : C → Int
  exec : C → σ → Option (σ × C)
  und : C → σ → Option (σ × C)
  mrg : C → C → Option C
  hasMerge : C → Bool

/-- Manager state: `undoStack`/`redoStack` oldest-first (top = last element),
as in the source arrays. -/
structure HistoryManager (C : Type) where
  undoStack : List C
  redoStack : List C
  currentDateKey : String
  maxHistorySize : Nat
  isExecuting : Bool
deriving DecidableEq, Repr

/-- Result of one manager operation: the manager and store afterwards (the
source's `finally` always resets `isExecuting`, so results carry the caller's
flag), the error thrown if any, and the boolean the source returns
(`undo`/`redo` return `false` both when there is nothing to do and when
re-entered; `executeCommand` returns no value, encoded as `ret = false` on
throw and `true` on success). -/
structure StepResult (σ C : Type) where
  mgr : HistoryManager C
  st : σ
  err : Option UErr
  ret : Bool

def canMergeCommands {σ C : Type} (cfg : UndoRedoConfig) (ops : CmdOps σ C)
    (last cur : C) : Bool :=
  ops.tag last = ops.tag cur ∧ ops.dkey last = ops.dkey cur ∧
    ops.ts cur - ops.ts last < cfg.mergeTimeWindow

/-- The merged branch of `executeCommand` (stack top replaced, redo stack
untouched).  `saveHistory` here is NOT inside the inner try/catch, so a
persistence throw reaches the outer catch: with the optimistic flag set it is
re-thrown raw, without it it gets wrapped as a `CommandExecutionError`. -/
def executeMergedPath {σ C : Type} (cfg : UndoRedoConfig) (ops : CmdOps σ C)
    (persistThrows : Bool) (m : HistoryManager C) (s : σ) (merged : C) :
    StepResult σ C :=
  if cfg.enableOptimisticUpdates then
    match ops.exec merged s with
    | none => ⟨m, s, some (.commandExecution .external), false⟩
    | some (s1, merged1) =>
      let m1 := { m with undoStack := m.undoStack.dropLast ++ [merged1] }
      if persistThrows then ⟨m1, s1, some .external, false⟩
      else ⟨m1, s1, none, true⟩
  else
    let m1 := { m with undoStack := m.undoStack.dropLast ++ [merged] }
    match ops.exec merged s with
    | none => ⟨m1, s, some (.commandExecution .external), false⟩
    | some (s1, merged1) =>
      let m2 := { m1 with undoStack := m1.undoStack.dropLast ++ [merged1] }
      if persistThrows then ⟨m2, s1, some (.commandExecution .external), false⟩
      else ⟨m2, s1, none, true⟩

/-- The push branch of `executeCommand`: (optimistic) execute, push, clear the
redo stack, trim from the front, persist; on a persistence throw with the
optimistic flag set, best-effort rollback (`command.undo()`, pop, swallow a
rollback failure) and throw `PersistenceError`; without the flag the
`PersistenceError` is caught again by the outer catch and wrapped as a
`CommandExecutionError`. -/
def executeNonMergePath {σ C : Type} (cfg : UndoRedoConfig) (ops : CmdOps σ C)
    (persistThrows : Bool) (m : HistoryManager C) (s : σ) (command : C) :
    StepResult σ C :=
  if cfg.enableOptimisticUpdates then
    match ops.exec command s with
    | none => ⟨m, s, some (.commandExecution .external), false⟩
    | some (s1, c1) =>
      let stack1 := m.undoStack ++ [c1]
      let stack2 := if stack1.length > m.maxHistorySize then stack1.drop 1 else stack1
      let m1 := { m with undoStack := stack2, redoStack := ([] : List C) }
      if persistThrows then
        match ops.und c1 s1 with
        | some (s2, _) =>
          ⟨{ m1 with undoStack := m1.undoStack.dropLast }, s2,
            some (.persistenceFailed .external), false⟩
        | none => ⟨m1, s1, some (.persistenceFailed .external), false⟩
      else ⟨m1, s1, none, true⟩
  else
    let stack1 := m.undoStack ++ [command]
    let stack2 := if stack1.length > m.maxHistorySize then stack1.drop 1 else stack1
    let m1 := { m with undoStack := stack2, redoStack := ([] : List C) }
    match ops.exec command s with
    | none => ⟨m1, s, some (.commandExecution .external), false⟩
    | some (s1, c1) =>
      -- the executed object sits at the stack top (unless the trim above
      -- already evicted it, possible only with capacity 0), so its in-place
      -- mutations are visible there
      let m2 := { m1 with undoStack :=
        if m1.undoStack.isEmpty then m1.undoStack else m1.undoStack.dropLast ++ [c1] }
      if persistThrows then
        ⟨m2, s1, some (.commandExecution (.persistenceFailed .external)), false⟩
      else ⟨m2, s1, none, true⟩

/-- `HistoryManager.executeCommand`. -/
def executeCommand {σ C : Type} (cfg : UndoRedoConfig) (ops : CmdOps σ C)
    (persistThrows : Bool) (m : HistoryManager C) (s : σ) (command : C) :
    StepResult σ C :=
  if m.isExecuting then ⟨m, s, some .undoRedo, false⟩
  else
    match m.undoStack.getLast? with
    | some lastCommand =>
      if ops.hasMerge command ∧ canMergeCommands cfg ops lastCommand command then
        match ops.mrg command lastCommand with
        | some merged => executeMergedPath cfg ops persistThrows m s merged
        | none => executeNonMergePath cfg ops persistThrows m s command
      else executeNonMergePath cfg ops persistThrows m s command
    | none => executeNonMergePath cfg ops persistThrows m s command

/-- `HistoryManager.undo`.  Note two behaviors of the source preserved here:
the inner `PersistenceError` is caught by the outer catch and re-wrapped as
`CommandExecutionError('Undo failed')`; and when the optimistic `undo()`
itself throws, the outer catch runs
`this.undoStack.push(this.redoStack.pop()!)`, which moves the top of the
PRE-EXISTING redo stack onto the undo stack (on an empty redo stack the
source pushes `undefined`; that entry is modeled as pushing nothing, and no
theorem below relies on that branch). -/
def undoStep {σ C : Type} (cfg : UndoRedoConfig) (ops : CmdOps σ C)
    (persistThrows : Bool) (m : HistoryManager C) (s : σ) : StepResult σ C :=
  if m.undoStack.length = 0 ∨ m.isExecuting then ⟨m, s, none, false⟩
  else
    match m.undoStack.getLast? with
    | none => ⟨m, s, none, false⟩
    | some command =>
      let mp := { m with undoStack := m.undoStack.dropLast }
      if cfg.enableOptimisticUpdates then
        match ops.und command s with
        | none =>
          match mp.redoStack.getLast? with
          | some r =>
            ⟨{ mp with undoStack := mp.undoStack ++ [r],
                       redoStack := mp.redoStack.dropLast }, s,
              some (.commandExecution .external), false⟩
          | none => ⟨mp, s, some (.commandExecution .external), false⟩
        | some (s1, c1) =>
          let m1 := { mp with redoStack := mp.redoStack ++ [c1] }
          if persistThrows then
            match ops.exec c1 s1 with
            | some (s2, c2) =>
              ⟨{ m1 with redoStack := m1.redoStack.dropLast,
                         undoStack := m1.undoStack ++ [c2] }, s2,
                some (.commandExecution (.persistenceFailed .external)), false⟩
            | none =>
              ⟨m1, s1, some (.commandExecution (.persistenceFailed .external)), false⟩
          else ⟨m1, s1, none, true⟩
      else
        let m1 := { mp with redoStack := mp.redoStack ++ [command] }
        match ops.und command s with
        | none =>
          ⟨{ m1 with redoStack := m1.redoStack.dropLast,
                     undoStack := m1.undoStack ++ [command] }, s,
            some (.commandExecution .external), false⟩
        | some (s1, c1) =>
          let m2 := { m1 with redoStack := m1.redoStack.dropLast ++ [c1] }
          if persistThrows then
            -- optimisticUndoApplied is still false in this path, so the inner
            -- catch runs NO rollback; the outer catch then moves the command
            -- back from the redo stack to the undo stack and wraps the
            -- PersistenceError as CommandExecutionError
            ⟨{ m2 with redoStack := m2.redoStack.dropLast,
                       undoStack := m2.undoStack ++ [c1] }, s1,
              some (.commandExecution (.persistenceFailed .external)), false⟩
          else ⟨m2, s1, none, true⟩

/-- `HistoryManager.redo` — the mirror image of `undoStep`, with the same two
preserved behaviors (`CommandExecutionError('Redo failed')` wrapping, and the
outer catch popping the pre-existing undo stack when the optimistic
`execute()` throws). -/
def redoStep {σ C : Type} (cfg : UndoRedoConfig) (ops : CmdOps σ C)
    (persistThrows : Bool) (m : HistoryManager C) (s : σ) : StepResult σ C :=
  if m.redoStack.length = 0 ∨ m.isExecuting then ⟨m, s, none, false⟩
  else
    match m.redoStack.getLast? with
    | none => ⟨m, s, none, false⟩
    | some command =>
      let mp := { m with redoStack := m.redoStack.dropLast }
      if cfg.enableOptimisticUpdates then
        match ops.exec command s with
        | none =>
          match mp.undoStack.getLast? with
          | some r =>
            ⟨{ mp with redoStack := mp.redoStack ++ [r],
                       undoStack := mp.undoStack.dropLast }, s,
              some (.commandExecution .external), false⟩
          | none => ⟨mp, s, some (.commandExecution .external), false⟩
        | some (s1, c1) =>
          let m1 := { mp with undoStack := mp.undoStack ++ [c1] }
          if persistThrows then
            match ops.und c1 s1 with
            | some (s2, c2) =>
              ⟨{ m1 with undoStack := m1.undoStack.dropLast,
                         redoStack := m1.redoStack ++ [c2] }, s2,
                some (.commandExecution (.persistenceFailed .external)), false⟩
            | none =>
              ⟨m1, s1, some (.commandExecution (.persistenceFailed .external)), false⟩
          else ⟨m1, s1, none, true⟩
      else
        let m1 := { mp with undoStack := mp.undoStack ++ [command] }
        match ops.exec command s with
        | none =>
          ⟨{ m1 with undoStack := m1.undoStack.dropLast,
                     redoStack := m1.redoStack ++ [command] }, s,
            some (.commandExecution .external), false⟩
        | some (s1, c1) =>
          let m2 := { m1 with undoStack := m1.undoStack.dropLast ++ [c1] }
          if persistThrows then
            -- mirror of undo: optimisticRedoApplied is still false, so no
            -- rollback runs; the outer catch moves the command back from the
            -- undo stack to the redo stack and wraps the PersistenceError
            ⟨{ m2 with undoStack := m2.undoStack.dropLast,
                       redoStack := m2.redoStack ++ [c1] }, s1,
              some (.commandExecution (.persistenceFailed .external)), false⟩
          else ⟨m2, s1, none, true⟩

/-- The persisted `HistoryState` for one date key, holding the commands the
stacks deserialize to (`deserializeCommand` drops undeserializable entries;
the lists here are the surviving entries). -/
structure HistoryState (C : Type) where
  undoStack : List C
  redoStack : List C
  dateKey : String
  maxHistorySize : Nat
deriving DecidableEq, Repr

/-- `HistoryManager.loadHistory`: hydrates the stacks verbatim from the
persisted state — no truncation against the configured capacity. -/
def loadHistory {C : Type} (cfg : UndoRedoConfig) (saved : Option (HistoryState C)) :
    List C × List C :=
  if cfg.enablePersistence then
    match saved with
    | some st => (st.undoStack, st.redoStack)
    | none => ([], [])
  else ([], [])

/-- The `HistoryManager` constructor (which runs `loadHistory`). -/
def mkHistoryManager {C : Type} (cfg : UndoRedoConfig) (dateKey : String)
    (maxHistorySize : Nat) (saved : Option (HistoryState C)) : HistoryManager C :=
  let loaded := loadHistory cfg saved
  ⟨loaded.1, loaded.2, dateKey, maxHistorySize, false⟩

/-! ## Instantiations of the manager -/

/-- The catalog instantiation: `HistoryManager` driven by the concrete
commands of `commands.ts` over the day-record store.  Catalog mutations in
the embedded store are total, so `exec`/`und` always succeed;
`hasMerge` is `true` for every catalog command because `BaseCommand` defines
a (default, `null`-returning) `merge`. -/
def gcmdOps : CmdOps DB GCmd where
  tag c := c.data.typeTag
  dkey c := c.dateKey
  ts c := c.timestamp
  exec c db := some (c.executeRun db)
  und c db := some (c.undoRun db, c)
  mrg cur other := cur.mergeWith other
  hasMerge _ := true

/-- A scripted command for exercising the manager against the bare `Command`
interface (which permits `execute`/`undo` to reject): its effect on an
abstract integer store is `+delta` forward and `-delta` backward, with
switches forcing either direction to throw.  It has no `merge` method. -/
structure TestCmd where
  tag : String
  dateKey : String
  timestamp : Int
  delta : Int
  execOk : Bool
  undoOk : Bool
deriving DecidableEq, Repr

def testOps : CmdOps Int TestCmd where
  tag c := c.tag
  dkey c := c.dateKey
  ts c := c.timestamp
  exec c s := if c.execOk then some (s + c.delta, c) else none
  und c s := if c.undoOk then some (s - c.delta, c) else none
  mrg _ _ := none
  hasMerge _ := false

/-! ## History store persistence layer (`undoRedo.ts` module state)

The module-level trio `historyDbInstance` / `isHistoryDBAvailable` /
`fallbackHistoryStorage` and the store-level halves of
`initHistoryDB` / `getPersistedHistory` / `saveHistory`.  The durable
backend's behavior is environmental, so each step takes oracle booleans for
whether `openDB` / `get` / `put` succeed; persisted payloads are abstracted
to `Nat` tokens (their contents never influence which backend is used). -/

structure HistoryStoreState where
  isHistoryDBAvailable : Bool
  historyDbInstance : Bool
  durable : List (String × Nat)
  fallbackHistoryStorage : List (String × Nat)
deriving DecidableEq, Repr

def lookupKey : List (String × Nat) → String → Option Nat
  | [], _ => none
  | (k, v) :: rest, key => if k = key then some v else lookupKey rest key

def setKey : List (String × Nat) → String → Nat → List (String × Nat)
  | [], key, v => [(key, v)]
  | (k, w) :: rest, key, v =>
    if k = key then (key, v) :: rest else (k, w) :: setKey rest key v

/-- `initHistoryDB`: on `openDB` failure the catch sets
`isHistoryDBAvailable = false` — the only place the flag is ever written. -/
def initHistoryDB (st : HistoryStoreState) (openOk : Bool) : HistoryStoreState :=
  if openOk then { st with historyDbInstance := true }
  else { st with isHistoryDBAvailable := false }

/-- `getPersistedHistory`: result is the state afterwards, the value read,
and whether the durable backend was touched (opened or read) at all. -/
def getPersistedHistory (st : HistoryStoreState) (key : String)
    (openOk getOk : Bool) : HistoryStoreState × Option Nat × Bool :=
  if !st.isHistoryDBAvailable then
    (st, lookupKey st.fallbackHistoryStorage key, false)
  else
    let st1 := if st.historyDbInstance then st else initHistoryDB st openOk
    if !st1.historyDbInstance then (st1, none, true)
    else if getOk then (st1, lookupKey st1.durable key, true)
    else (st1, lookupKey st1.fallbackHistoryStorage key, true)

/-- The store-level half of `saveHistory` (serialization succeeded): write to
the fallback map when unavailable; otherwise open if needed, then `put`, the
catch falling back to the in-memory map. -/
def savePersistedHistory (st : HistoryStoreState) (key : String) (v : Nat)
    (openOk putOk : Bool) : HistoryStoreState × Bool :=
  if !st.isHistoryDBAvailable then
    ({ st with fallbackHistoryStorage := setKey st.fallbackHistoryStorage key v }, false)
  else
    let st1 := if st.historyDbInstance then st else initHistoryDB st openOk
    if !st1.historyDbInstance then (st1, true)
    else if putOk then ({ st1 with durable := setKey st1.durable key v }, true)
    else ({ st1 with fallbackHistoryStorage := setKey st1.fallbackHistoryStorage key v }, true)

/-- A session tail: each element is one get or put with its oracle outcomes. -/
inductive HStoreOp where
  | get (key : String) (openOk getOk : Bool)
  | put (key : String) (v : Nat) (openOk putOk : Bool)
deriving DecidableEq, Repr

def hstoreStep (st : HistoryStoreState) : HStoreOp → HistoryStoreState × Bool
  | .get key openOk getOk =>
    let r := getPersistedHistory st key openOk getOk
    (r.1, r.2.2)
  | .put key v openOk putOk => savePersistedHistory st key v openOk putOk

/-- Runs a session tail, returning the final state and the trace of
"durable backend touched" flags. -/
def runHStore (st : HistoryStoreState) : List HStoreOp → HistoryStoreState × List Bool
  | [] => (st, [])
  | op :: rest =>
    let r := hstoreStep st op
    let r2 := runHStore r.1 rest
    (r2.1, r.2 :: r2.2)

/-! ## Observation helpers -/

/-- The content of one note as the UI reads it back. -/
def noteContent (db : DB) (date : String) (nid : Nat) : Option String :=
  (getDayData db date).bind
    (fun d => (d.notes.find? (fun n => n.id = nid)).map (fun n => n.content))

/-- Whether a checklist item with the given id exists in the day's record. -/
def hasItem (db : DB) (date : String) (iid : Nat) : Bool :=
  ((getDayData db date).bind (fun d => d.checklist.find? (fun i => i.id = iid))).isSome

/-- Discriminator: is an error a `PersistenceError` (of any cause)? -/
def UErr.isPersistenceError : UErr → Bool
  | .persistenceFailed _ => true
  | _ => false

/-! ## Claims -/

/-- **C1.** The claim says a merge keeps the predecessor's original
before-state and the current command's after-state, with the current
command's timestamp.  `executeCommand` calls `command.merge(lastCommand)`
(current command as receiver), but `EditNoteCommand.merge` was written for
the opposite orientation, so the merged command actually keeps the CURRENT
command's before-state (`this.oldContent`), the PREDECESSOR's after-state
(`other.newContent`), and the predecessor's (older) timestamp — contradicting
the comments in `merge` itself.  Evaluated here at two consecutive edits of
note 1 ("A"→"B" at t=0, then "B"→"C" at t=500, inside every window): the
merged command is `old:"B", new:"B", ts:0` instead of the claimed
`old:"A", new:"C", ts:500`, and running edit, edit, undo through the manager
leaves the note at "B", not at the pre-first-edit "A". -/
theorem editNote_merge_orientation_bug_eval :
    (GCmd.mergeWith ⟨"d", 500, .editNote 1 "B" "C"⟩ ⟨"d", 0, .editNote 1 "A" "B"⟩ =
      some ⟨"d", 0, .editNote 1 "B" "B"⟩) ∧
    (let r1 := executeCommand defaultConfig gcmdOps false ⟨[], [], "d", 100, false⟩
        ⟨[("d", ⟨[⟨1, "A"⟩], []⟩)], 2⟩ ⟨"d", 0, .editNote 1 "A" "B"⟩
     let r2 := executeCommand defaultConfig gcmdOps false r1.mgr r1.st
        ⟨"d", 500, .editNote 1 "B" "C"⟩
     let r3 := undoStep defaultConfig gcmdOps false r2.mgr r2.st
     r1.err = none ∧ r2.err = none ∧ r3.err = none ∧
       noteContent r3.st "d" 1 = some "B" ∧ noteContent r3.st "d" 1 ≠ some "A") := by
  decide

/-- **C2.** The claim says a mutation-then-persistence-failure rolls back and
raises a PersistenceError distinct from a command-execution failure.
`executeCommand` does this, but in `undo()` (and `redo()`) the deliberately
thrown `PersistenceError` is caught again by the function's own outer catch
and re-wrapped as `CommandExecutionError('Undo failed')` — so the caller
receives a command-execution failure, not a distinguishable persistence
failure.  Evaluated at an undo of one scripted command from store 5 with
persistence throwing: the rollback itself works (store back to 5, stacks
restored), but the surfaced error is
`commandExecution (persistenceFailed external)`, not a `persistenceFailed`. -/
theorem undo_persistence_error_misclassified_eval :
    (let r := undoStep defaultConfig testOps true
        ⟨[⟨"t", "d", 0, 1, true, true⟩], [], "d", 100, false⟩ (5 : Int)
     r.st = 5 ∧ r.mgr.undoStack = [⟨"t", "d", 0, 1, true, true⟩] ∧
       r.mgr.redoStack = [] ∧
       r.err = some (.commandExecution (.persistenceFailed .external)) ∧
       r.err.map UErr.isPersistenceError = some false) ∧
    (let rx := executeCommand defaultConfig testOps true
        ⟨[], [], "d", 100, false⟩ (5 : Int) ⟨"t", "d", 0, 1, true, true⟩
     rx.st = 5 ∧ rx.mgr.undoStack = [] ∧
       rx.err = some (.persistenceFailed .external) ∧
       rx.err.map UErr.isPersistenceError = some true) := by
  decide

/-- **C3.** The claim says a failed mutation leaves both stacks exactly as
they were.  In `undo()`, when the optimistic `command.undo()` throws, the
outer catch runs `this.undoStack.push(this.redoStack.pop()!)` — but with
optimistic updates (the default) the failing command was never pushed onto
the redo stack, so this moves an unrelated pre-existing redo entry onto the
undo stack and drops the failing command, contradicting the code's own
comment "Put command back if undo failed completely".  Evaluated at
undoStack = [c] (whose undo throws) and redoStack = [r]: afterwards
undoStack = [r] and redoStack = [], not the original stacks. -/
theorem undo_mutation_failure_corrupts_stacks_eval :
    (undoStep defaultConfig testOps false
        ⟨[⟨"t", "d", 0, 1, true, false⟩], [⟨"r", "d", 0, 1, true, true⟩], "d", 100, false⟩
        (5 : Int)).err = some (.commandExecution .external) ∧
      (undoStep defaultConfig testOps false
        ⟨[⟨"t", "d", 0, 1, true, false⟩], [⟨"r", "d", 0, 1, true, true⟩], "d", 100, false⟩
        (5 : Int)).mgr.undoStack = [⟨"r", "d", 0, 1, true, true⟩] ∧
      (undoStep defaultConfig testOps false
        ⟨[⟨"t", "d", 0, 1, true, false⟩], [⟨"r", "d", 0, 1, true, true⟩], "d", 100, false⟩
        (5 : Int)).mgr.redoStack = [] ∧
      (undoStep defaultConfig testOps false
        ⟨[⟨"t", "d", 0, 1, true, false⟩], [⟨"r", "d", 0, 1, true, true⟩], "d", 100, false⟩
        (5 : Int)).mgr.undoStack ≠ [⟨"t", "d", 0, 1, true, false⟩] := by
  decide

/-- **C4 (counterexample).** `execute(); undo()` is NOT a field-by-field
inverse for every catalog command: `DeleteNoteCommand.undo` re-inserts the
snapshot through `addNote`, generating a fresh id and appending at the end;
`DeleteChecklistItemCommand.undo` likewise; and `ReorderChecklistCommand`'s
round trip renumbers `order` values to contiguous indices.  Evaluated at a
two-note day (delete note 1), and at a checklist with orders {0, 2}. -/
theorem execute_undo_not_exact_inverse_counterexample :
    (let p := GCmd.executeRun ⟨"d", 0, .deleteNoteCmd 1 none⟩ ⟨[("d", ⟨[⟨1, "a"⟩, ⟨2, "b"⟩], []⟩)], 3⟩
     (p.2.undoRun p.1).days = [("d", ⟨[⟨2, "b"⟩, ⟨3, "a"⟩], []⟩)] ∧
       (p.2.undoRun p.1).days ≠ [("d", ⟨[⟨1, "a"⟩, ⟨2, "b"⟩], []⟩)]) ∧
    (let p := GCmd.executeRun ⟨"d", 0, .deleteItemCmd 1 none⟩
        ⟨[("d", ⟨[], [⟨1, "x", false, 0⟩, ⟨2, "y", true, 2⟩]⟩)], 3⟩
     (p.2.undoRun p.1).days ≠ [("d", ⟨[], [⟨1, "x", false, 0⟩, ⟨2, "y", true, 2⟩]⟩)]) ∧
    (let p := GCmd.executeRun ⟨"d", 0, .reorderCmd [2, 1] []⟩
        ⟨[("d", ⟨[], [⟨1, "x", false, 0⟩, ⟨2, "y", true, 2⟩]⟩)], 3⟩
     (p.2.undoRun p.1).days ≠ [("d", ⟨[], [⟨1, "x", false, 0⟩, ⟨2, "y", true, 2⟩]⟩)]) := by
  decide

/-- **C6 (counterexample).** The invariant `undoStack.length ≤ maxHistorySize`
does NOT hold after every manager operation: `loadHistory` hydrates the
persisted stacks verbatim, so a manager constructed with capacity 2 over a
persisted state holding 3 commands starts (and, because trimming removes
only one entry per push, stays) above capacity. -/
theorem loadHistory_exceeds_capacity_counterexample :
    (let m : HistoryManager TestCmd := mkHistoryManager defaultConfig "d" 2
        (some ⟨[⟨"a", "d", 0, 1, true, true⟩, ⟨"b", "d", 0, 1, true, true⟩,
                ⟨"c", "d", 0, 1, true, true⟩], [], "d", 100⟩)
     m.undoStack.length = 3 ∧ ¬ (m.undoStack.length ≤ m.maxHistorySize) ∧
       (executeCommand defaultConfig testOps false m 0
          ⟨"e", "d", 0, 1, true, true⟩).mgr.undoStack.length = 3) := by
  decide

/-- **C8 (counterexample).** A re-entrant call does not always fail "with a
busy condition": `executeCommand` throws a busy `UndoRedoError`, but a
re-entrant `undo()` (here on a manager with a non-empty undo stack, so the
early return is due only to `isExecuting`) just returns `false` with no
error raised — indistinguishable from "nothing to undo". -/
theorem undo_busy_returns_false_counterexample :
    let r := undoStep defaultConfig testOps false
        ⟨[⟨"t", "d", 0, 1, true, true⟩], [], "d", 100, true⟩ (5 : Int)
    r.err = none ∧ r.ret = false := by
  decide

/-- **C8 (amended).** Re-entrancy guard, as the code actually behaves: a
re-entrant `executeCommand` throws a busy `UndoRedoError` synchronously with
no state change; re-entrant `undo`/`redo` return `false` immediately with no
state change and no error; none of the three is ever queued (each returns at
once). -/
theorem reentrancy_guard_amended {σ C : Type} (ops : CmdOps σ C) (cfg : UndoRedoConfig)
    (pT : Bool) (m : HistoryManager C) (s : σ) (c : C) (h : m.isExecuting = true) :
    executeCommand cfg ops pT m s c = ⟨m, s, some .undoRedo, false⟩ ∧
    undoStep cfg ops pT m s = ⟨m, s, none, false⟩ ∧
    redoStep cfg ops pT m s = ⟨m, s, none, false⟩ := by
  refine ⟨?_, ?_, ?_⟩
  · simp [executeCommand, h]
  · simp [undoStep, h]
  · simp [redoStep, h]

theorem reentrancy_guard_amended_witness :
    executeCommand defaultConfig testOps false ⟨[], [], "d", 100, true⟩ (0 : Int)
        ⟨"t", "d", 0, 1, true, true⟩ =
      ⟨⟨[], [], "d", 100, true⟩, 0, some .undoRedo, false⟩ ∧
    undoStep defaultConfig testOps false ⟨[], [], "d", 100, true⟩ (0 : Int) =
      ⟨⟨[], [], "d", 100, true⟩, 0, none, false⟩ ∧
    redoStep defaultConfig testOps false ⟨[], [], "d", 100, true⟩ (0 : Int) =
      ⟨⟨[], [], "d", 100, true⟩, 0, none, false⟩ :=
  reentrancy_guard_amended testOps defaultConfig false ⟨[], [], "d", 100, true⟩ 0
    ⟨"t", "d", 0, 1, true, true⟩ rfl

/-- **C9.** Once the durable history backend has failed to initialize
(`isHistoryDBAvailable = false`), every later `get` and `put` in the session
is served by the in-memory fallback map: the flag is never reset, and the
durable backend is never touched again, over any sequence of operations with
any oracle outcomes. -/
theorem fallback_permanent (st : HistoryStoreState) (opsList : List HStoreOp)
    (h : st.isHistoryDBAvailable = false) :
    (runHStore st opsList).1.isHistoryDBAvailable = false ∧
    ∀ b ∈ (runHStore st opsList).2, b = false := by
  induction opsList generalizing st with
  | nil => simpa [runHStore] using h
  | cons op rest ih =>
    have hstep : (hstoreStep st op).1.isHistoryDBAvailable = false ∧
        (hstoreStep st op).2 = false := by
      cases op <;> simp [hstoreStep, getPersistedHistory, savePersistedHistory, h]
    have hrest := ih (hstoreStep st op).1 hstep.1
    refine ⟨by simpa [runHStore] using hrest.1, ?_⟩
    intro b hb
    simp only [runHStore, List.mem_cons] at hb
    rcases hb with hb | hb
    · rw [hb]; exact hstep.2
    · exact hrest.2 b hb

theorem fallback_permanent_witness :
    (runHStore ⟨false, false, [], []⟩
        [.get "d" true true, .put "d" 7 true true, .get "d" false false]).1.isHistoryDBAvailable
      = false ∧
    (∀ b ∈ (runHStore ⟨false, false, [], []⟩
        [.get "d" true true, .put "d" 7 true true, .get "d" false false]).2, b = false) :=
  fallback_permanent ⟨false, false, [], []⟩
    [.get "d" true true, .put "d" 7 true true, .get "d" false false] rfl

/-- **C10.** When no checklist item with the command's id exists in the
day's record (including when the day has no record at all),
`ToggleChecklistItemCommand.execute()` and `.undo()` are total no-ops: the
store is returned unchanged, the command is unchanged, and no failure is
possible (the embedded toggle is a total function). -/
theorem toggle_missing_item_noop (db : DB) (dateKey : String) (iid : Nat) (ts : Int)
    (h : hasItem db dateKey iid = false) :
    GCmd.executeRun ⟨dateKey, ts, .toggleItem iid⟩ db = (db, ⟨dateKey, ts, .toggleItem iid⟩) ∧
    GCmd.undoRun ⟨dateKey, ts, .toggleItem iid⟩ db = db := by
  have h2 : ((getDayData db dateKey).bind
      (fun d => d.checklist.find? (fun i => i.id = iid))) = none := by
    cases hx : ((getDayData db dateKey).bind
        (fun d => d.checklist.find? (fun i => i.id = iid))) with
    | none => rfl
    | some v => rw [hasItem, hx] at h; simp at h
  exact ⟨by simp [GCmd.executeRun, h2], by simp [GCmd.undoRun, h2]⟩

theorem toggle_missing_item_noop_witness :
    GCmd.executeRun ⟨"d", 0, .toggleItem 9⟩ ⟨[("d", ⟨[], [⟨1, "x", false, 0⟩]⟩)], 2⟩ =
      (⟨[("d", ⟨[], [⟨1, "x", false, 0⟩]⟩)], 2⟩, ⟨"d", 0, .toggleItem 9⟩) ∧
    GCmd.undoRun ⟨"d", 0, .toggleItem 9⟩ ⟨[("d", ⟨[], [⟨1, "x", false, 0⟩]⟩)], 2⟩ =
      ⟨[("d", ⟨[], [⟨1, "x", false, 0⟩]⟩)], 2⟩ :=
  toggle_missing_item_noop ⟨[("d", ⟨[], [⟨1, "x", false, 0⟩]⟩)], 2⟩ "d" 9 0 (by decide)

/-! ## Manager stack bookkeeping lemmas -/

theorem executeCommand_fields {σ C : Type} (cfg : UndoRedoConfig) (ops : CmdOps σ C)
    (pT : Bool) (m : HistoryManager C) (s : σ) (c : C) :
    (executeCommand cfg ops pT m s c).mgr.isExecuting = m.isExecuting ∧
    (executeCommand cfg ops pT m s c).mgr.maxHistorySize = m.maxHistorySize := by
  constructor <;>
  · unfold executeCommand executeMergedPath executeNonMergePath
    dsimp only
    repeat' (first | split | dsimp only)

theorem undoStep_fields {σ C : Type} (cfg : UndoRedoConfig) (ops : CmdOps σ C)
    (pT : Bool) (m : HistoryManager C) (s : σ) :
    (undoStep cfg ops pT m s).mgr.isExecuting = m.isExecuting ∧
    (undoStep cfg ops pT m s).mgr.maxHistorySize = m.maxHistorySize := by
  constructor <;>
  · unfold undoStep
    dsimp only
    repeat' (first | split | dsimp only)

theorem redoStep_fields {σ C : Type} (cfg : UndoRedoConfig) (ops : CmdOps σ C)
    (pT : Bool) (m : HistoryManager C) (s : σ) :
    (redoStep cfg ops pT m s).mgr.isExecuting = m.isExecuting ∧
    (redoStep cfg ops pT m s).mgr.maxHistorySize = m.maxHistorySize := by
  constructor <;>
  · unfold redoStep
    dsimp only
    repeat' (first | split | dsimp only)

/-- A successful non-merge `executeCommand` leaves `redoStack = []`. -/
theorem executeNonMergePath_success_redo {σ C : Type} (cfg : UndoRedoConfig)
    (ops : CmdOps σ C) (pT : Bool) (m : HistoryManager C) (s : σ) (c : C)
    (h : (executeNonMergePath cfg ops pT m s c).err = none) :
    (executeNonMergePath cfg ops pT m s c).mgr.redoStack = [] := by
  revert h
  unfold executeNonMergePath
  repeat' split
  all_goals intro h
  all_goals simp_all

/-- Whether `executeCommand(command)` on manager `m` would take the merge
branch (substitute the stack top) rather than push: the stack top exists,
the command has a `merge` method, the manager-level gate passes, and the
command-level `merge` returns non-null.  This is the exact condition guarding
the substitution in the source; "non-merge" executions are those where this
is `false` — including catalog commands whose inherited `merge` returns
`null` or whose gate fails. -/
def mergeBranchTaken {σ C : Type} (cfg : UndoRedoConfig) (ops : CmdOps σ C)
    (m : HistoryManager C) (command : C) : Bool :=
  match m.undoStack.getLast? with
  | some lastCommand =>
    if ops.hasMerge command ∧ canMergeCommands cfg ops lastCommand command then
      (ops.mrg command lastCommand).isSome
    else false
  | none => false

/-- Any successful non-merge `executeCommand` (one that pushes a new forward
command rather than substituting the stack top) leaves the redo stack
empty. -/
theorem executeCommand_success_redo {σ C : Type} (cfg : UndoRedoConfig)
    (ops : CmdOps σ C) (pT : Bool) (m : HistoryManager C) (s : σ) (c : C)
    (hbranch : mergeBranchTaken cfg ops m c = false)
    (h : (executeCommand cfg ops pT m s c).err = none) :
    (executeCommand cfg ops pT m s c).mgr.redoStack = [] := by
  unfold mergeBranchTaken at hbranch
  revert h
  unfold executeCommand
  split
  · intro h; simp at h
  · cases hlast : m.undoStack.getLast? with
    | none =>
      simp only [hlast]
      exact fun h => executeNonMergePath_success_redo cfg ops pT m s c h
    | some lastCommand =>
      simp only [hlast] at hbranch
      simp only [hlast]
      by_cases hgate : ops.hasMerge c = true ∧ canMergeCommands cfg ops lastCommand c = true
      · rw [if_pos hgate] at hbranch
        rw [if_pos hgate]
        cases hmrg : ops.mrg c lastCommand with
        | some merged => rw [hmrg] at hbranch; simp at hbranch
        | none =>
          simp only [hmrg]
          exact fun h => executeNonMergePath_success_redo cfg ops pT m s c h
      · rw [if_neg hgate]
        exact fun h => executeNonMergePath_success_redo cfg ops pT m s c h

/-- A successful push-branch `executeCommand` on a manager with capacity at
least 1 leaves a non-empty undo stack (the pushed command survives the
trim). -/
theorem executeNonMergePath_success_undo_pos {σ C : Type} (cfg : UndoRedoConfig)
    (ops : CmdOps σ C) (pT : Bool) (m : HistoryManager C) (s : σ) (c : C)
    (hcap : 1 ≤ m.maxHistorySize)
    (h : (executeNonMergePath cfg ops pT m s c).err = none) :
    0 < (executeNonMergePath cfg ops pT m s c).mgr.undoStack.length := by
  revert h
  unfold executeNonMergePath
  dsimp only
  repeat' (first | split | dsimp only)
  all_goals intro h
  all_goals simp_all [List.length_dropLast, List.isEmpty_iff, List.length_drop]
  all_goals
    first
    | omega
    | (have hlen := congrArg List.length
          (show (m.undoStack ++ [c]).tail = [] by assumption)
       simp only [List.length_tail, List.length_append, List.length_cons,
         List.length_nil] at hlen
       omega)

theorem executeCommand_success_undo_ne_nil {σ C : Type} (cfg : UndoRedoConfig)
    (ops : CmdOps σ C) (pT : Bool) (m : HistoryManager C) (s : σ) (c : C)
    (hbranch : mergeBranchTaken cfg ops m c = false) (hcap : 1 ≤ m.maxHistorySize)
    (h : (executeCommand cfg ops pT m s c).err = none) :
    (executeCommand cfg ops pT m s c).mgr.undoStack ≠ [] := by
  unfold mergeBranchTaken at hbranch
  revert h
  unfold executeCommand
  split
  · intro h; simp at h
  · cases hlast : m.undoStack.getLast? with
    | none =>
      simp only [hlast]
      intro h
      exact List.ne_nil_of_length_pos
        (executeNonMergePath_success_undo_pos cfg ops pT m s c hcap h)
    | some lastCommand =>
      simp only [hlast] at hbranch
      simp only [hlast]
      by_cases hgate : ops.hasMerge c = true ∧ canMergeCommands cfg ops lastCommand c = true
      · rw [if_pos hgate] at hbranch
        rw [if_pos hgate]
        cases hmrg : ops.mrg c lastCommand with
        | some merged => rw [hmrg] at hbranch; simp at hbranch
        | none =>
          simp only [hmrg]
          intro h
          exact List.ne_nil_of_length_pos
            (executeNonMergePath_success_undo_pos cfg ops pT m s c hcap h)
      · rw [if_neg hgate]
        intro h
        exact List.ne_nil_of_length_pos
          (executeNonMergePath_success_undo_pos cfg ops pT m s c hcap h)

/-- A successful `undo()` that actually ran (non-empty undo stack, not
re-entered) grows the redo stack by exactly one entry. -/
theorem undoStep_success_redo_len {σ C : Type} (cfg : UndoRedoConfig)
    (ops : CmdOps σ C) (pT : Bool) (m : HistoryManager C) (s : σ)
    (hne : m.undoStack ≠ []) (hidle : m.isExecuting = false)
    (h : (undoStep cfg ops pT m s).err = none) :
    (undoStep cfg ops pT m s).mgr.redoStack.length = m.redoStack.length + 1 := by
  revert h
  unfold undoStep
  dsimp only
  repeat' (first | split | dsimp only)
  all_goals intro h
  all_goals simp_all [List.length_dropLast, List.length_append]

/-- **C5.** After `execute(c1); undo()` the redo stack has size 1; then any
successful new non-merge `executeCommand(c2)` (one that pushes a new forward
command — `mergeBranchTaken` is false, which covers real catalog commands
whose inherited `merge` returns null or whose gate fails) clears it to size
0 — and in general every successful non-merge `executeCommand` empties the
redo stack entirely (last conjunct).  The scenario is stated from an
arbitrary idle manager with capacity ≥ 1 whose three steps succeed. -/
theorem new_action_invalidates_redo {σ C : Type} (ops : CmdOps σ C)
    (cfg : UndoRedoConfig) (m : HistoryManager C) (s : σ) (c1 c2 : C)
    (hidle : m.isExecuting = false) (hcap : 1 ≤ m.maxHistorySize)
    (hb1 : mergeBranchTaken cfg ops m c1 = false)
    (hb2 : mergeBranchTaken cfg ops
            (undoStep cfg ops false (executeCommand cfg ops false m s c1).mgr
              (executeCommand cfg ops false m s c1).st).mgr c2 = false)
    (h1 : (executeCommand cfg ops false m s c1).err = none)
    (h2 : (undoStep cfg ops false (executeCommand cfg ops false m s c1).mgr
            (executeCommand cfg ops false m s c1).st).err = none)
    (h3 : (executeCommand cfg ops false
            (undoStep cfg ops false (executeCommand cfg ops false m s c1).mgr
              (executeCommand cfg ops false m s c1).st).mgr
            (undoStep cfg ops false (executeCommand cfg ops false m s c1).mgr
              (executeCommand cfg ops false m s c1).st).st c2).err = none) :
    (undoStep cfg ops false (executeCommand cfg ops false m s c1).mgr
        (executeCommand cfg ops false m s c1).st).mgr.redoStack.length = 1 ∧
    (executeCommand cfg ops false
        (undoStep cfg ops false (executeCommand cfg ops false m s c1).mgr
          (executeCommand cfg ops false m s c1).st).mgr
        (undoStep cfg ops false (executeCommand cfg ops false m s c1).mgr
          (executeCommand cfg ops false m s c1).st).st c2).mgr.redoStack = [] ∧
    (∀ (m1 : HistoryManager C) (s1 : σ) (c : C) (pT : Bool),
      mergeBranchTaken cfg ops m1 c = false →
      (executeCommand cfg ops pT m1 s1 c).err = none →
      (executeCommand cfg ops pT m1 s1 c).mgr.redoStack = []) := by
  have hx1 := executeCommand_fields cfg ops false m s c1
  have hr1 := executeCommand_success_redo cfg ops false m s c1 hb1 h1
  have hu1 := executeCommand_success_undo_ne_nil cfg ops false m s c1 hb1 hcap h1
  refine ⟨?_, ?_, ?_⟩
  · have := undoStep_success_redo_len cfg ops false
      (executeCommand cfg ops false m s c1).mgr (executeCommand cfg ops false m s c1).st
      hu1 (by rw [hx1.1, hidle]) h2
    rw [this, hr1]
    rfl
  · exact executeCommand_success_redo cfg ops false _ _ c2 hb2 h3
  · exact fun m1 s1 c pT hb h => executeCommand_success_redo cfg ops pT m1 s1 c hb h

/-- Witness at real catalog commands: two `AddNoteCommand`s (which inherit
`BaseCommand`'s null-returning `merge`) against a concrete day store. -/
theorem new_action_invalidates_redo_witness :
    (undoStep defaultConfig gcmdOps false
        (executeCommand defaultConfig gcmdOps false ⟨[], [], "d", 100, false⟩
          ⟨[("d", ⟨[], []⟩)], 1⟩ ⟨"d", 0, .addNoteCmd "x" none⟩).mgr
        (executeCommand defaultConfig gcmdOps false ⟨[], [], "d", 100, false⟩
          ⟨[("d", ⟨[], []⟩)], 1⟩ ⟨"d", 0, .addNoteCmd "x" none⟩).st).mgr.redoStack.length = 1 ∧
    (executeCommand defaultConfig gcmdOps false
        (undoStep defaultConfig gcmdOps false
          (executeCommand defaultConfig gcmdOps false ⟨[], [], "d", 100, false⟩
            ⟨[("d", ⟨[], []⟩)], 1⟩ ⟨"d", 0, .addNoteCmd "x" none⟩).mgr
          (executeCommand defaultConfig gcmdOps false ⟨[], [], "d", 100, false⟩
            ⟨[("d", ⟨[], []⟩)], 1⟩ ⟨"d", 0, .addNoteCmd "x" none⟩).st).mgr
        (undoStep defaultConfig gcmdOps false
          (executeCommand defaultConfig gcmdOps false ⟨[], [], "d", 100, false⟩
            ⟨[("d", ⟨[], []⟩)], 1⟩ ⟨"d", 0, .addNoteCmd "x" none⟩).mgr
          (executeCommand defaultConfig gcmdOps false ⟨[], [], "d", 100, false⟩
            ⟨[("d", ⟨[], []⟩)], 1⟩ ⟨"d", 0, .addNoteCmd "x" none⟩).st).st
        ⟨"d", 0, .addNoteCmd "y" none⟩).mgr.redoStack = [] ∧
    (∀ (m1 : HistoryManager GCmd) (s1 : DB) (c : GCmd) (pT : Bool),
      mergeBranchTaken defaultConfig gcmdOps m1 c = false →
      (executeCommand defaultConfig gcmdOps pT m1 s1 c).err = none →
      (executeCommand defaultConfig gcmdOps pT m1 s1 c).mgr.redoStack = []) :=
  new_action_invalidates_redo gcmdOps defaultConfig ⟨[], [], "d", 100, false⟩
    ⟨[("d", ⟨[], []⟩)], 1⟩ ⟨"d", 0, .addNoteCmd "x" none⟩ ⟨"d", 0, .addNoteCmd "y" none⟩
    rfl (by decide) (by decide) (by decide) (by decide) (by decide) (by decide)

/-- Capacity preservation for `executeCommand`: from any state where the two
stacks jointly fit the capacity, the undo stack stays within capacity on
every outcome (success, busy, mutation failure, persistence failure). -/
theorem executeCommand_capacity {σ C : Type} (cfg : UndoRedoConfig)
    (ops : CmdOps σ C) (pT : Bool) (m : HistoryManager C) (s : σ) (c : C)
    (hsum : m.undoStack.length + m.redoStack.length ≤ m.maxHistorySize) :
    (executeCommand cfg ops pT m s c).mgr.undoStack.length ≤
      (executeCommand cfg ops pT m s c).mgr.maxHistorySize := by
  unfold executeCommand executeMergedPath executeNonMergePath
  dsimp only
  repeat' (first | split | dsimp only)
  all_goals
    try simp_all [List.length_dropLast, List.length_append, List.length_drop,
      List.isEmpty_iff]
  all_goals
    first
    | omega
    | (have hne : m.undoStack ≠ [] := List.getLast?_isSome.mp (by simp [*])
       have hpos : 0 < m.undoStack.length := List.length_pos.mpr hne
       omega)

/-- Capacity preservation for `undo`. -/
theorem undoStep_capacity {σ C : Type} (cfg : UndoRedoConfig)
    (ops : CmdOps σ C) (pT : Bool) (m : HistoryManager C) (s : σ)
    (hsum : m.undoStack.length + m.redoStack.length ≤ m.maxHistorySize) :
    (undoStep cfg ops pT m s).mgr.undoStack.length ≤
      (undoStep cfg ops pT m s).mgr.maxHistorySize := by
  unfold undoStep
  dsimp only
  repeat' (first | split | dsimp only)
  all_goals
    try simp_all [List.length_dropLast, List.length_append, List.length_drop]
  all_goals
    first
    | omega
    | (have hne : m.undoStack ≠ [] := List.getLast?_isSome.mp (by simp [*])
       have hpos : 0 < m.undoStack.length := List.length_pos.mpr hne
       omega)

/-- Capacity preservation for `redo`. -/
theorem redoStep_capacity {σ C : Type} (cfg : UndoRedoConfig)
    (ops : CmdOps σ C) (pT : Bool) (m : HistoryManager C) (s : σ)
    (hsum : m.undoStack.length + m.redoStack.length ≤ m.maxHistorySize) :
    (redoStep cfg ops pT m s).mgr.undoStack.length ≤
      (redoStep cfg ops pT m s).mgr.maxHistorySize := by
  unfold redoStep
  dsimp only
  repeat' (first | split | dsimp only)
  all_goals
    try simp_all [List.length_dropLast, List.length_append, List.length_drop]
  all_goals
    first
    | omega
    | (have hne : m.redoStack ≠ [] := List.getLast?_isSome.mp (by simp [*])
       have hpos : 0 < m.redoStack.length := List.length_pos.mpr hne
       omega)

/-- **C6 (amended).** `undoStack.length ≤ maxHistorySize` is preserved by
every command-affecting operation (`executeCommand`, `undo`, `redo`, on any
outcome) from any state where the two stacks jointly fit the capacity — but
it is NOT established by hydration: `loadHistory` copies an oversized
persisted stack verbatim (see the counterexample).  The eviction behavior is
as claimed: executing `maxHistorySize + 1` non-mergeable commands from an
empty manager leaves exactly `maxHistorySize` entries, the oldest evicted
from the front (last conjunct, instantiated at capacity 2: the three pushed
commands survive as the newest two). -/
theorem undoStack_capacity_amended {σ C : Type} (cfg : UndoRedoConfig)
    (ops : CmdOps σ C) (pT : Bool) (m : HistoryManager C) (s : σ) (c : C)
    (hsum : m.undoStack.length + m.redoStack.length ≤ m.maxHistorySize) :
    ((executeCommand cfg ops pT m s c).mgr.undoStack.length ≤
       (executeCommand cfg ops pT m s c).mgr.maxHistorySize ∧
     (undoStep cfg ops pT m s).mgr.undoStack.length ≤
       (undoStep cfg ops pT m s).mgr.maxHistorySize ∧
     (redoStep cfg ops pT m s).mgr.undoStack.length ≤
       (redoStep cfg ops pT m s).mgr.maxHistorySize) ∧
    (let mE : HistoryManager TestCmd := ⟨[], [], "d", 2, false⟩
     let rE1 := executeCommand defaultConfig testOps false mE 0 ⟨"a", "d", 0, 1, true, true⟩
     let rE2 := executeCommand defaultConfig testOps false rE1.mgr rE1.st ⟨"b", "d", 0, 1, true, true⟩
     let rE3 := executeCommand defaultConfig testOps false rE2.mgr rE2.st ⟨"c", "d", 0, 1, true, true⟩
     rE3.mgr.undoStack =
       [⟨"b", "d", 0, 1, true, true⟩, ⟨"c", "d", 0, 1, true, true⟩]) := by
  refine ⟨⟨executeCommand_capacity cfg ops pT m s c hsum,
           undoStep_capacity cfg ops pT m s hsum,
           redoStep_capacity cfg ops pT m s hsum⟩, by decide⟩

theorem undoStack_capacity_amended_witness :
    ((executeCommand defaultConfig testOps false ⟨[], [], "d", 2, false⟩ (0 : Int)
        ⟨"a", "d", 0, 1, true, true⟩).mgr.undoStack.length ≤
       (executeCommand defaultConfig testOps false ⟨[], [], "d", 2, false⟩ (0 : Int)
        ⟨"a", "d", 0, 1, true, true⟩).mgr.maxHistorySize ∧
     (undoStep defaultConfig testOps false ⟨[], [], "d", 2, false⟩ (0 : Int)).mgr.undoStack.length ≤
       (undoStep defaultConfig testOps false ⟨[], [], "d", 2, false⟩ (0 : Int)).mgr.maxHistorySize ∧
     (redoStep defaultConfig testOps false ⟨[], [], "d", 2, false⟩ (0 : Int)).mgr.undoStack.length ≤
       (redoStep defaultConfig testOps false ⟨[], [], "d", 2, false⟩ (0 : Int)).mgr.maxHistorySize) ∧
    (let mE : HistoryManager TestCmd := ⟨[], [], "d", 2, false⟩
     let rE1 := executeCommand defaultConfig testOps false mE 0 ⟨"a", "d", 0, 1, true, true⟩
     let rE2 := executeCommand defaultConfig testOps false rE1.mgr rE1.st ⟨"b", "d", 0, 1, true, true⟩
     let rE3 := executeCommand defaultConfig testOps false rE2.mgr rE2.st ⟨"c", "d", 0, 1, true, true⟩
     rE3.mgr.undoStack =
       [⟨"b", "d", 0, 1, true, true⟩, ⟨"c", "d", 0, 1, true, true⟩]) :=
  undoStack_capacity_amended defaultConfig testOps false ⟨[], [], "d", 2, false⟩ 0
    ⟨"a", "d", 0, 1, true, true⟩ (by decide)

/-- **C7.** Merge window: two consecutive edit-note commands on the same
note with timestamps `t` and `t + d` collapse into a single undo entry iff
`d < mergeTimeWindow` (the manager-level gate; the class-level 2000ms check
compares the predecessor against the current command, giving `-d < 2000`,
which always holds); otherwise two entries result and two undos restore the
pre-first-edit content.  Stated for any configuration with optimistic
updates (the default) over a one-note day, universally in the base
timestamp `t` and the gap `d`. -/
theorem editNote_merge_window_iff (t : Int) (d : Nat) (cfg : UndoRedoConfig)
    (hopt : cfg.enableOptimisticUpdates = true) :
    ((executeCommand cfg gcmdOps false
        (executeCommand cfg gcmdOps false ⟨[], [], "d", 100, false⟩
          ⟨[("d", ⟨[⟨1, "A"⟩], []⟩)], 2⟩ ⟨"d", t, .editNote 1 "A" "B"⟩).mgr
        (executeCommand cfg gcmdOps false ⟨[], [], "d", 100, false⟩
          ⟨[("d", ⟨[⟨1, "A"⟩], []⟩)], 2⟩ ⟨"d", t, .editNote 1 "A" "B"⟩).st
        ⟨"d", t + d, .editNote 1 "B" "C"⟩).mgr.undoStack.length = 1 ↔
      (d : Int) < cfg.mergeTimeWindow) ∧
    (¬ ((d : Int) < cfg.mergeTimeWindow) →
      (executeCommand cfg gcmdOps false
        (executeCommand cfg gcmdOps false ⟨[], [], "d", 100, false⟩
          ⟨[("d", ⟨[⟨1, "A"⟩], []⟩)], 2⟩ ⟨"d", t, .editNote 1 "A" "B"⟩).mgr
        (executeCommand cfg gcmdOps false ⟨[], [], "d", 100, false⟩
          ⟨[("d", ⟨[⟨1, "A"⟩], []⟩)], 2⟩ ⟨"d", t, .editNote 1 "A" "B"⟩).st
        ⟨"d", t + d, .editNote 1 "B" "C"⟩).mgr.undoStack.length = 2 ∧
      noteContent
        (undoStep cfg gcmdOps false
          (undoStep cfg gcmdOps false
            (executeCommand cfg gcmdOps false
              (executeCommand cfg gcmdOps false ⟨[], [], "d", 100, false⟩
                ⟨[("d", ⟨[⟨1, "A"⟩], []⟩)], 2⟩ ⟨"d", t, .editNote 1 "A" "B"⟩).mgr
              (executeCommand cfg gcmdOps false ⟨[], [], "d", 100, false⟩
                ⟨[("d", ⟨[⟨1, "A"⟩], []⟩)], 2⟩ ⟨"d", t, .editNote 1 "A" "B"⟩).st
              ⟨"d", t + d, .editNote 1 "B" "C"⟩).mgr
            (executeCommand cfg gcmdOps false
              (executeCommand cfg gcmdOps false ⟨[], [], "d", 100, false⟩
                ⟨[("d", ⟨[⟨1, "A"⟩], []⟩)], 2⟩ ⟨"d", t, .editNote 1 "A" "B"⟩).mgr
              (executeCommand cfg gcmdOps false ⟨[], [], "d", 100, false⟩
                ⟨[("d", ⟨[⟨1, "A"⟩], []⟩)], 2⟩ ⟨"d", t, .editNote 1 "A" "B"⟩).st
              ⟨"d", t + d, .editNote 1 "B" "C"⟩).st).mgr
          (undoStep cfg gcmdOps false
            (executeCommand cfg gcmdOps false
              (executeCommand cfg gcmdOps false ⟨[], [], "d", 100, false⟩
                ⟨[("d", ⟨[⟨1, "A"⟩], []⟩)], 2⟩ ⟨"d", t, .editNote 1 "A" "B"⟩).mgr
              (executeCommand cfg gcmdOps false ⟨[], [], "d", 100, false⟩
                ⟨[("d", ⟨[⟨1, "A"⟩], []⟩)], 2⟩ ⟨"d", t, .editNote 1 "A" "B"⟩).st
              ⟨"d", t + d, .editNote 1 "B" "C"⟩).mgr
            (executeCommand cfg gcmdOps false
              (executeCommand cfg gcmdOps false ⟨[], [], "d", 100, false⟩
                ⟨[("d", ⟨[⟨1, "A"⟩], []⟩)], 2⟩ ⟨"d", t, .editNote 1 "A" "B"⟩).mgr
              (executeCommand cfg gcmdOps false ⟨[], [], "d", 100, false⟩
                ⟨[("d", ⟨[⟨1, "A"⟩], []⟩)], 2⟩ ⟨"d", t, .editNote 1 "A" "B"⟩).st
              ⟨"d", t + d, .editNote 1 "B" "C"⟩).st).st).st "d" 1 = some "A") := by
  have hA : executeCommand cfg gcmdOps false ⟨[], [], "d", 100, false⟩
      ⟨[("d", ⟨[⟨1, "A"⟩], []⟩)], 2⟩ ⟨"d", t, .editNote 1 "A" "B"⟩ =
      ⟨⟨[⟨"d", t, .editNote 1 "A" "B"⟩], [], "d", 100, false⟩,
        ⟨[("d", ⟨[⟨1, "B"⟩], []⟩)], 2⟩, none, true⟩ := by
    simp [executeCommand, executeNonMergePath, hopt, gcmdOps, GCmd.executeRun,
      updateNote, getDayData, findDay, normalizeDay, sortByOrder, saveDayData,
      setDay, updateFirstNote]
  rw [hA]
  by_cases hw : (d : Int) < cfg.mergeTimeWindow
  · have h1 : t + (d : Int) - t = (d : Int) := by ring
    have h2 : t - (t + (d : Int)) < 2000 := by omega
    have h3 : -(d : Int) < 2000 := by omega
    have hB : executeCommand cfg gcmdOps false
        ⟨[⟨"d", t, .editNote 1 "A" "B"⟩], [], "d", 100, false⟩
        ⟨[("d", ⟨[⟨1, "B"⟩], []⟩)], 2⟩ ⟨"d", t + d, .editNote 1 "B" "C"⟩ =
        ⟨⟨[⟨"d", t, .editNote 1 "B" "B"⟩], [], "d", 100, false⟩,
          ⟨[("d", ⟨[⟨1, "B"⟩], []⟩)], 2⟩, none, true⟩ := by
      simp [executeCommand, executeMergedPath, canMergeCommands, hopt, gcmdOps,
        GCmd.executeRun, GCmd.mergeWith, GCmdData.typeTag, updateNote, getDayData,
        findDay, normalizeDay, sortByOrder, saveDayData, setDay, updateFirstNote,
        h1, h2, h3, hw]
    rw [hB]
    exact ⟨by simpa using hw, fun hcon => absurd hw hcon⟩
  · have h1 : t + (d : Int) - t = (d : Int) := by ring
    have hB : executeCommand cfg gcmdOps false
        ⟨[⟨"d", t, .editNote 1 "A" "B"⟩], [], "d", 100, false⟩
        ⟨[("d", ⟨[⟨1, "B"⟩], []⟩)], 2⟩ ⟨"d", t + d, .editNote 1 "B" "C"⟩ =
        ⟨⟨[⟨"d", t, .editNote 1 "A" "B"⟩, ⟨"d", t + d, .editNote 1 "B" "C"⟩],
            [], "d", 100, false⟩,
          ⟨[("d", ⟨[⟨1, "C"⟩], []⟩)], 2⟩, none, true⟩ := by
      simp [executeCommand, executeNonMergePath, canMergeCommands, hopt, gcmdOps,
        GCmd.executeRun, GCmdData.typeTag, updateNote, getDayData,
        findDay, normalizeDay, sortByOrder, saveDayData, setDay, updateFirstNote,
        h1, hw]
    rw [hB]
    have hC : undoStep cfg gcmdOps false
        ⟨[⟨"d", t, .editNote 1 "A" "B"⟩, ⟨"d", t + d, .editNote 1 "B" "C"⟩],
          [], "d", 100, false⟩
        ⟨[("d", ⟨[⟨1, "C"⟩], []⟩)], 2⟩ =
        ⟨⟨[⟨"d", t, .editNote 1 "A" "B"⟩], [⟨"d", t + d, .editNote 1 "B" "C"⟩],
            "d", 100, false⟩,
          ⟨[("d", ⟨[⟨1, "B"⟩], []⟩)], 2⟩, none, true⟩ := by
      simp [undoStep, hopt, gcmdOps, GCmd.undoRun, updateNote, getDayData,
        findDay, normalizeDay, sortByOrder, saveDayData, setDay, updateFirstNote]
    rw [hC]
    have hD : undoStep cfg gcmdOps false
        ⟨[⟨"d", t, .editNote 1 "A" "B"⟩], [⟨"d", t + d, .editNote 1 "B" "C"⟩],
          "d", 100, false⟩
        ⟨[("d", ⟨[⟨1, "B"⟩], []⟩)], 2⟩ =
        ⟨⟨[], [⟨"d", t + d, .editNote 1 "B" "C"⟩, ⟨"d", t, .editNote 1 "A" "B"⟩],
            "d", 100, false⟩,
          ⟨[("d", ⟨[⟨1, "A"⟩], []⟩)], 2⟩, none, true⟩ := by
      simp [undoStep, hopt, gcmdOps, GCmd.undoRun, updateNote, getDayData,
        findDay, normalizeDay, sortByOrder, saveDayData, setDay, updateFirstNote]
    rw [hD]
    refine ⟨by simpa using hw, fun _ => ⟨rfl, ?_⟩⟩
    simp [noteContent, getDayData, findDay, normalizeDay, sortByOrder]

theorem editNote_merge_window_iff_witness :
    defaultConfig.enableOptimisticUpdates = true ∧
    (((executeCommand defaultConfig gcmdOps false
        (executeCommand defaultConfig gcmdOps false ⟨[], [], "d", 100, false⟩
          ⟨[("d", ⟨[⟨1, "A"⟩], []⟩)], 2⟩ ⟨"d", 0, .editNote 1 "A" "B"⟩).mgr
        (executeCommand defaultConfig gcmdOps false ⟨[], [], "d", 100, false⟩
          ⟨[("d", ⟨[⟨1, "A"⟩], []⟩)], 2⟩ ⟨"d", 0, .editNote 1 "A" "B"⟩).st
        ⟨"d", (0 : Int) + (1500 : Nat), .editNote 1 "B" "C"⟩).mgr.undoStack.length = 1 ↔
      ((1500 : Nat) : Int) < defaultConfig.mergeTimeWindow)) :=
  ⟨rfl, (editNote_merge_window_iff 0 1500 defaultConfig rfl).1⟩

/-! ## Well-formedness infrastructure for the undo-inverse analysis -/

/-- Adjacent-pairs ascending chain over the `order` values. -/
def ordersChain : List Nat → Bool
  | [] => true
  | [_] => true
  | a :: b :: rest => a ≤ b && ordersChain (b :: rest)

/-- A checklist on which the `getDayData` normalization sort is the
identity. -/
def sortedByOrder (l : List ChecklistItem) : Bool :=
  ordersChain (l.map (fun i => i.order))

theorem sortByOrder_of_sorted (l : List ChecklistItem)
    (h : sortedByOrder l = true) : sortByOrder l = l := by
  induction l with
  | nil => rfl
  | cons x xs ih =>
    cases xs with
    | nil => rfl
    | cons y ys =>
      have hxy : x.order ≤ y.order := by
        simp [sortedByOrder, ordersChain] at h
        exact h.1
      have htail : sortedByOrder (y :: ys) = true := by
        simp [sortedByOrder, ordersChain] at h ⊢
        exact h.2
      have hstep : sortByOrder (x :: y :: ys) = insertByOrder x (sortByOrder (y :: ys)) := rfl
      rw [hstep, ih htail]
      simp [insertByOrder, hxy]

theorem setDay_setDay (l : List (String × DayData)) (k : String) (v w : DayData) :
    setDay (setDay l k v) k w = setDay l k w := by
  induction l with
  | nil => simp [setDay]
  | cons p rest ih =>
    by_cases h : p.1 = k
    · simp [setDay, h]
    · simp [setDay, h, ih]

theorem setDay_of_findDay (l : List (String × DayData)) (k : String) (v : DayData)
    (h : findDay l k = some v) : setDay l k v = l := by
  induction l with
  | nil => simp [findDay] at h
  | cons p rest ih =>
    cases p with
    | mk k1 v1 =>
      simp only [findDay] at h
      simp only [setDay]
      by_cases hk : k1 = k
      · rw [if_pos hk] at h
        rw [if_pos hk]
        obtain rfl : v1 = v := by injection h
        subst hk
        rfl
      · rw [if_neg hk] at h
        rw [if_neg hk, ih h]

theorem findDay_setDay (l : List (String × DayData)) (k : String) (v : DayData) :
    findDay (setDay l k v) k = some v := by
  induction l with
  | nil => simp [setDay, findDay]
  | cons p rest ih =>
    by_cases hk : p.1 = k
    · cases p with
      | mk k1 v1 =>
        simp only [setDay]
        rw [if_pos hk]
        simp [findDay]
    · cases p with
      | mk k1 v1 =>
        simp only [setDay]
        rw [if_neg hk]
        simp only [findDay]
        rw [if_neg hk]
        exact ih

theorem findDay_mem (l : List (String × DayData)) (k : String) (v : DayData)
    (h : findDay l k = some v) : (k, v) ∈ l := by
  induction l with
  | nil => simp [findDay] at h
  | cons p rest ih =>
    cases p with
    | mk k1 v1 =>
      simp only [findDay] at h
      by_cases hk : k1 = k
      · rw [if_pos hk] at h
        cases h
        subst hk
        exact List.mem_cons_self _ _
      · rw [if_neg hk] at h
        exact List.mem_cons_of_mem _ (ih h)

/-- Every item's order is bounded by `maxOrder`. -/
theorem le_maxOrder (l : List ChecklistItem) (i : ChecklistItem) (h : i ∈ l) :
    i.order ≤ maxOrder l := by
  induction l with
  | nil => simp at h
  | cons x xs ih =>
    rcases List.mem_cons.mp h with h | h
    · subst h; simp [maxOrder]
    · simp only [maxOrder, List.foldr_cons]
      exact le_trans (ih h) (le_max_right _ _)

/-- Appending an item whose order dominates the list keeps it sorted. -/
theorem sortedByOrder_append (l : List ChecklistItem) (x : ChecklistItem)
    (hs : sortedByOrder l = true) (hb : ∀ i ∈ l, i.order ≤ x.order) :
    sortedByOrder (l ++ [x]) = true := by
  induction l with
  | nil => simp [sortedByOrder, ordersChain]
  | cons y ys ih =>
    cases ys with
    | nil =>
      simp [sortedByOrder, ordersChain]
      exact hb y (by simp)
    | cons z zs =>
      have h1 : y.order ≤ z.order := by
        simp [sortedByOrder, ordersChain] at hs
        exact hs.1
      have h2 : sortedByOrder (z :: zs) = true := by
        simp [sortedByOrder, ordersChain] at hs ⊢
        exact hs.2
      have h3 := ih h2 (fun i hi => hb i (List.mem_cons_of_mem _ hi))
      simp only [sortedByOrder, List.cons_append, List.map_cons] at h3 ⊢
      simp only [ordersChain, Bool.and_eq_true, decide_eq_true_eq]
      exact ⟨h1, by simpa [sortedByOrder] using h3⟩

theorem updateFirstNote_updateFirstNote (nid : Nat) (f g : Note → Note)
    (hf : ∀ n, (f n).id = n.id) (l : List Note) :
    updateFirstNote nid g (updateFirstNote nid f l) =
      updateFirstNote nid (fun n => g (f n)) l := by
  induction l with
  | nil => rfl
  | cons n ns ih =>
    by_cases h : n.id = nid
    · simp [updateFirstNote, h, hf n]
    · simp [updateFirstNote, h, ih]

theorem updateFirstNote_eq_self (nid : Nat) (f : Note → Note) (l : List Note)
    (n0 : Note) (hfind : l.find? (fun n => n.id = nid) = some n0) (hfix : f n0 = n0) :
    updateFirstNote nid f l = l := by
  induction l with
  | nil => simp [List.find?] at hfind
  | cons n ns ih =>
    by_cases h : n.id = nid
    · rw [List.find?_cons_of_pos _ (by simp [h])] at hfind
      obtain rfl : n = n0 := by injection hfind
      simp [updateFirstNote, h, hfix]
    · rw [List.find?_cons_of_neg _ (by simp [h])] at hfind
      simp [updateFirstNote, h, ih hfind]

theorem any_updateFirstNote (nid : Nat) (f : Note → Note)
    (hf : ∀ n, (f n).id = n.id) (l : List Note) :
    (updateFirstNote nid f l).any (fun n => n.id = nid) =
      l.any (fun n => n.id = nid) := by
  induction l with
  | nil => rfl
  | cons n ns ih =>
    by_cases h : n.id = nid
    · simp [updateFirstNote, h, hf n]
    · simp [updateFirstNote, h, ih]

theorem updateFirstItem_updateFirstItem (iid : Nat) (f g : ChecklistItem → ChecklistItem)
    (hf : ∀ i, (f i).id = i.id) (l : List ChecklistItem) :
    updateFirstItem iid g (updateFirstItem iid f l) =
      updateFirstItem iid (fun i => g (f i)) l := by
  induction l with
  | nil => rfl
  | cons i is ih =>
    by_cases h : i.id = iid
    · simp [updateFirstItem, h, hf i]
    · simp [updateFirstItem, h, ih]

theorem updateFirstItem_eq_self (iid : Nat) (f : ChecklistItem → ChecklistItem)
    (l : List ChecklistItem) (i0 : ChecklistItem)
    (hfind : l.find? (fun i => i.id = iid) = some i0) (hfix : f i0 = i0) :
    updateFirstItem iid f l = l := by
  induction l with
  | nil => simp [List.find?] at hfind
  | cons i is ih =>
    by_cases h : i.id = iid
    · rw [List.find?_cons_of_pos _ (by simp [h])] at hfind
      obtain rfl : i = i0 := by injection hfind
      simp [updateFirstItem, h, hfix]
    · rw [List.find?_cons_of_neg _ (by simp [h])] at hfind
      simp [updateFirstItem, h, ih hfind]

theorem any_updateFirstItem (iid : Nat) (f : ChecklistItem → ChecklistItem)
    (hf : ∀ i, (f i).id = i.id) (l : List ChecklistItem) :
    (updateFirstItem iid f l).any (fun i => i.id = iid) =
      l.any (fun i => i.id = iid) := by
  induction l with
  | nil => rfl
  | cons i is ih =>
    by_cases h : i.id = iid
    · simp [updateFirstItem, h, hf i]
    · simp [updateFirstItem, h, ih]

theorem find?_updateFirstItem (iid : Nat) (f : ChecklistItem → ChecklistItem)
    (hf : ∀ i, (f i).id = i.id) (l : List ChecklistItem) :
    (updateFirstItem iid f l).find? (fun i => i.id = iid) =
      (l.find? (fun i => i.id = iid)).map f := by
  induction l with
  | nil => rfl
  | cons i is ih =>
    by_cases h : i.id = iid
    · rw [updateFirstItem]
      rw [if_pos h]
      rw [List.find?_cons_of_pos _ (by simp [hf i, h]),
          List.find?_cons_of_pos _ (by simp [h])]
      rfl
    · rw [updateFirstItem]
      rw [if_neg h]
      rw [List.find?_cons_of_neg _ (by simp [hf i, h]),
          List.find?_cons_of_neg _ (by simp [h])]
      exact ih

theorem map_order_updateFirstItem (iid : Nat) (f : ChecklistItem → ChecklistItem)
    (hf : ∀ i, (f i).order = i.order) (l : List ChecklistItem) :
    (updateFirstItem iid f l).map (fun i => i.order) = l.map (fun i => i.order) := by
  induction l with
  | nil => rfl
  | cons i is ih =>
    by_cases h : i.id = iid
    · simp [updateFirstItem, h, hf i]
    · simp [updateFirstItem, h, ih]

/-- Store well-formedness: every stored day has a normalized (sorted)
checklist and only ids strictly below the fresh-id counter. -/
def DB.wf (db : DB) : Bool :=
  db.days.all (fun p =>
    sortedByOrder p.2.checklist &&
    p.2.notes.all (fun n => n.id < db.nextId) &&
    p.2.checklist.all (fun i => i.id < db.nextId))

theorem wf_day_facts (db : DB) (k : String) (d : DayData)
    (hwf : db.wf = true) (hd : findDay db.days k = some d) :
    sortedByOrder d.checklist = true ∧
    (∀ n ∈ d.notes, n.id < db.nextId) ∧
    (∀ i ∈ d.checklist, i.id < db.nextId) := by
  have hmem := findDay_mem db.days k d hd
  have := (List.all_eq_true.mp hwf) (k, d) hmem
  simp only [Bool.and_eq_true, List.all_eq_true, decide_eq_true_eq] at this
  exact ⟨this.1.1, this.1.2, this.2⟩

theorem getDayData_of_wf (db : DB) (k : String) (d : DayData)
    (hwf : db.wf = true) (hd : findDay db.days k = some d) :
    getDayData db k = some d := by
  have hs := (wf_day_facts db k d hwf hd).1
  simp [getDayData, hd, normalizeDay, sortByOrder_of_sorted _ hs]

theorem c4_editNote_case (db : DB) (k : String) (ts : Int) (nid : Nat)
    (oldC newC : String) (d : DayData)
    (hwf : db.wf = true) (hd : findDay db.days k = some d)
    (hpre : ∀ n0, d.notes.find? (fun n => n.id = nid) = some n0 → n0.content = oldC) :
    ((GCmd.executeRun ⟨k, ts, .editNote nid oldC newC⟩ db).2.undoRun
      (GCmd.executeRun ⟨k, ts, .editNote nid oldC newC⟩ db).1).days = db.days := by
  have hfacts := wf_day_facts db k d hwf hd
  have hget : getDayData db k = some d := getDayData_of_wf db k d hwf hd
  simp only [GCmd.executeRun, GCmd.undoRun]
  by_cases hany : d.notes.any (fun n => n.id = nid) = true
  · -- the note exists: update to new, then back to old
    obtain ⟨n0, hn0mem, hn0id⟩ := List.any_eq_true.mp hany
    have hfind : d.notes.find? (fun n => n.id = nid) |>.isSome := by
      rw [List.find?_isSome]
      exact ⟨n0, hn0mem, hn0id⟩
    obtain ⟨nf, hnf⟩ := Option.isSome_iff_exists.mp hfind
    have hnfc : nf.content = oldC := hpre nf hnf
    set fNew : Note → Note := fun n => { n with content := newC } with hfNew
    set fOld : Note → Note := fun n => { n with content := oldC } with hfOld
    have hupd : updateNote db k nid newC =
        saveDayData db k { d with notes := updateFirstNote nid fNew d.notes } := by
      rw [updateNote, hget]
      simp [hany]
    rw [hupd]
    set d1 : DayData := { d with notes := updateFirstNote nid fNew d.notes } with hd1
    have hget1 : getDayData (saveDayData db k d1) k = some d1 := by
      simp [getDayData, saveDayData, findDay_setDay, normalizeDay,
        sortByOrder_of_sorted _ hfacts.1, hd1]
    have hany1 : d1.notes.any (fun n => n.id = nid) = true := by
      rw [hd1]
      simpa [any_updateFirstNote nid fNew (fun n => rfl) d.notes] using hany
    have hupd1 : updateNote (saveDayData db k d1) k nid oldC =
        saveDayData (saveDayData db k d1) k
          { d1 with notes := updateFirstNote nid fOld d1.notes } := by
      rw [updateNote, hget1]
      simp [hany1]
    rw [hupd1]
    have hcomp : updateFirstNote nid fOld d1.notes = d.notes := by
      rw [hd1]
      simp only
      rw [updateFirstNote_updateFirstNote nid fNew fOld (fun n => rfl) d.notes]
      have hsame : (fun n => fOld (fNew n)) = fOld := by
        funext n
        rw [hfNew, hfOld]
      rw [hsame]
      refine updateFirstNote_eq_self nid fOld d.notes nf hnf ?_
      rw [hfOld]
      cases nf with
      | mk i c =>
        simp only [Note.mk.injEq, true_and]
        simpa using hnfc.symm
    have hday : { d1 with notes := updateFirstNote nid fOld d1.notes } = d := by
      rw [hcomp, hd1]
    rw [hday]
    simp only [saveDayData]
    rw [setDay_setDay, setDay_of_findDay db.days k d hd]
  · -- the note does not exist: both directions are no-ops
    have hno : updateNote db k nid newC = db := by
      rw [updateNote, hget]
      simp [hany]
    rw [hno]
    have hno2 : updateNote db k nid oldC = db := by
      rw [updateNote, hget]
      simp [hany]
    rw [hno2]

theorem c4_editItem_case (db : DB) (k : String) (ts : Int) (iid : Nat)
    (oldT newT : String) (d : DayData)
    (hwf : db.wf = true) (hd : findDay db.days k = some d)
    (hpre : ∀ i0, d.checklist.find? (fun i => i.id = iid) = some i0 → i0.text = oldT) :
    ((GCmd.executeRun ⟨k, ts, .editItem iid oldT newT⟩ db).2.undoRun
      (GCmd.executeRun ⟨k, ts, .editItem iid oldT newT⟩ db).1).days = db.days := by
  have hfacts := wf_day_facts db k d hwf hd
  have hget : getDayData db k = some d := getDayData_of_wf db k d hwf hd
  simp only [GCmd.executeRun, GCmd.undoRun]
  by_cases hany : d.checklist.any (fun i => i.id = iid) = true
  · obtain ⟨i0m, hi0mem, hi0id⟩ := List.any_eq_true.mp hany
    have hfindS : d.checklist.find? (fun i => i.id = iid) |>.isSome := by
      rw [List.find?_isSome]
      exact ⟨i0m, hi0mem, hi0id⟩
    obtain ⟨i0, hif⟩ := Option.isSome_iff_exists.mp hfindS
    have hitc : i0.text = oldT := hpre i0 hif
    set fNew : ChecklistItem → ChecklistItem :=
      applyUpdates { text := some newT } with hfNew
    set fOld : ChecklistItem → ChecklistItem :=
      applyUpdates { text := some oldT } with hfOld
    have hfNewId : ∀ i, (fNew i).id = i.id := fun i => rfl
    have hfNewOrd : ∀ i, (fNew i).order = i.order := fun i => rfl
    have hupd : updateChecklistItem db k iid { text := some newT } =
        saveDayData db k { d with checklist := updateFirstItem iid fNew d.checklist } := by
      rw [updateChecklistItem, hget]
      simp [hany, hfNew]
    rw [hupd]
    set d1 : DayData := { d with checklist := updateFirstItem iid fNew d.checklist } with hd1
    have hs1 : sortedByOrder d1.checklist = true := by
      rw [hd1]
      simp only [sortedByOrder]
      rw [map_order_updateFirstItem iid fNew hfNewOrd d.checklist]
      exact hfacts.1
    have hget1 : getDayData (saveDayData db k d1) k = some d1 := by
      simp [getDayData, saveDayData, findDay_setDay, normalizeDay,
        sortByOrder_of_sorted _ hs1]
    have hany1 : d1.checklist.any (fun i => i.id = iid) = true := by
      rw [hd1]
      simpa [any_updateFirstItem iid fNew hfNewId d.checklist] using hany
    have hupd1 : updateChecklistItem (saveDayData db k d1) k iid { text := some oldT } =
        saveDayData (saveDayData db k d1) k
          { d1 with checklist := updateFirstItem iid fOld d1.checklist } := by
      rw [updateChecklistItem, hget1]
      simp [hany1, hfOld]
    rw [hupd1]
    have hcomp : updateFirstItem iid fOld d1.checklist = d.checklist := by
      rw [hd1]
      simp only
      rw [updateFirstItem_updateFirstItem iid fNew fOld hfNewId d.checklist]
      have hsame : (fun i => fOld (fNew i)) = fOld := by
        funext i
        rw [hfNew, hfOld]
        simp [applyUpdates]
      rw [hsame]
      refine updateFirstItem_eq_self iid fOld d.checklist i0 hif ?_
      rw [hfOld]
      cases i0 with
      | mk i t c o =>
        simp only [applyUpdates, Option.getD_some, Option.getD_none,
          ChecklistItem.mk.injEq, true_and, and_true]
        simpa using hitc.symm
    have hday : { d1 with checklist := updateFirstItem iid fOld d1.checklist } = d := by
      rw [hcomp, hd1]
    rw [hday]
    simp only [saveDayData]
    rw [setDay_setDay, setDay_of_findDay db.days k d hd]
  · have hno : updateChecklistItem db k iid { text := some newT } = db := by
      rw [updateChecklistItem, hget]
      simp [hany]
    rw [hno]
    have hno2 : updateChecklistItem db k iid { text := some oldT } = db := by
      rw [updateChecklistItem, hget]
      simp [hany]
    rw [hno2]

theorem c4_toggle_case (db : DB) (k : String) (ts : Int) (iid : Nat) (d : DayData)
    (hwf : db.wf = true) (hd : findDay db.days k = some d) :
    ((GCmd.executeRun ⟨k, ts, .toggleItem iid⟩ db).2.undoRun
      (GCmd.executeRun ⟨k, ts, .toggleItem iid⟩ db).1).days = db.days := by
  have hfacts := wf_day_facts db k d hwf hd
  have hget : getDayData db k = some d := getDayData_of_wf db k d hwf hd
  simp only [GCmd.executeRun, GCmd.undoRun]
  cases hif : d.checklist.find? (fun i => i.id = iid) with
  | none =>
    simp [hget, hif]
  | some item =>
    have hany : d.checklist.any (fun i => i.id = iid) = true := by
      rw [List.any_eq_true]
      exact ⟨item, List.mem_of_find?_eq_some hif, by simpa using List.find?_some hif⟩
    set fFlip : ChecklistItem → ChecklistItem :=
      applyUpdates { completed := some (!item.completed) } with hfFlip
    have hflipId : ∀ i, (fFlip i).id = i.id := fun i => rfl
    have hflipOrd : ∀ i, (fFlip i).order = i.order := fun i => rfl
    simp only [hget, Option.some_bind, hif]
    have hupd : updateChecklistItem db k iid { completed := some (!item.completed) } =
        saveDayData db k { d with checklist := updateFirstItem iid fFlip d.checklist } := by
      rw [updateChecklistItem, hget]
      simp [hany, hfFlip]
    rw [hupd]
    set d1 : DayData := { d with checklist := updateFirstItem iid fFlip d.checklist } with hd1
    have hs1 : sortedByOrder d1.checklist = true := by
      rw [hd1]
      simp only [sortedByOrder]
      rw [map_order_updateFirstItem iid fFlip hflipOrd d.checklist]
      exact hfacts.1
    have hget1 : getDayData (saveDayData db k d1) k = some d1 := by
      simp [getDayData, saveDayData, findDay_setDay, normalizeDay,
        sortByOrder_of_sorted _ hs1]
    have hfind1 : d1.checklist.find? (fun i => i.id = iid) = some (fFlip item) := by
      rw [hd1]
      simp only
      rw [find?_updateFirstItem iid fFlip hflipId d.checklist, hif]
      rfl
    simp only [hget1, Option.some_bind, hfind1]
    have hany1 : d1.checklist.any (fun i => i.id = iid) = true := by
      rw [hd1]
      simpa [any_updateFirstItem iid fFlip hflipId d.checklist] using hany
    set fBack : ChecklistItem → ChecklistItem :=
      applyUpdates { completed := some (!(fFlip item).completed) } with hfBack
    have hupd1 : updateChecklistItem (saveDayData db k d1) k iid
        { completed := some (!(fFlip item).completed) } =
        saveDayData (saveDayData db k d1) k
          { d1 with checklist := updateFirstItem iid fBack d1.checklist } := by
      rw [updateChecklistItem, hget1]
      simp [hany1, hfBack]
    rw [hupd1]
    have hcomp : updateFirstItem iid fBack d1.checklist = d.checklist := by
      rw [hd1]
      simp only
      rw [updateFirstItem_updateFirstItem iid fFlip fBack hflipId d.checklist]
      have hsame : (fun i => fBack (fFlip i)) =
          (fun i => { i with completed := item.completed }) := by
        funext i
        rw [hfBack, hfFlip]
        simp [applyUpdates, Bool.not_not]
      rw [hsame]
      refine updateFirstItem_eq_self iid _ d.checklist item hif ?_
      cases item with
      | mk i t c o => rfl
    have hday : { d1 with checklist := updateFirstItem iid fBack d1.checklist } = d := by
      rw [hcomp, hd1]
    rw [hday]
    simp only [saveDayData]
    rw [setDay_setDay, setDay_of_findDay db.days k d hd]

theorem c4_addNote_case (db : DB) (k : String) (ts : Int) (content : String)
    (nid0 : Option Nat) (d : DayData)
    (hwf : db.wf = true) (hd : findDay db.days k = some d) :
    ((GCmd.executeRun ⟨k, ts, .addNoteCmd content nid0⟩ db).2.undoRun
      (GCmd.executeRun ⟨k, ts, .addNoteCmd content nid0⟩ db).1).days = db.days := by
  have hfacts := wf_day_facts db k d hwf hd
  have hget : getDayData db k = some d := getDayData_of_wf db k d hwf hd
  set note : Note := ⟨db.nextId, content⟩ with hnote
  set dAdd : DayData := { d with notes := d.notes ++ [note] } with hdAdd
  set db2 : DB := { db with nextId := db.nextId + 1 } with hdb2
  have hexec : GCmd.executeRun ⟨k, ts, .addNoteCmd content nid0⟩ db =
      (saveDayData db2 k dAdd,
        ⟨k, ts, .addNoteCmd content (some db.nextId)⟩) := by
    simp only [GCmd.executeRun, addNote, hget]
  rw [hexec]
  have hs1 : sortedByOrder dAdd.checklist = true := by
    rw [hdAdd]
    exact hfacts.1
  have hget1 : getDayData (saveDayData db2 k dAdd) k = some dAdd := by
    simp [getDayData, saveDayData, findDay_setDay, normalizeDay,
      sortByOrder_of_sorted _ hs1]
  have hfilter : dAdd.notes.filter (fun n => n.id ≠ db.nextId) = d.notes := by
    rw [hdAdd]
    simp only
    rw [List.filter_append]
    have h1 : d.notes.filter (fun n => n.id ≠ db.nextId) = d.notes := by
      rw [List.filter_eq_self]
      intro n hn
      simpa using Nat.ne_of_lt (hfacts.2.1 n hn)
    have h2 : [note].filter (fun n => n.id ≠ db.nextId) = [] := by
      simp [hnote]
    rw [h1, h2, List.append_nil]
  simp only [GCmd.undoRun]
  rw [deleteNote]
  simp only [hget1]
  rw [hfilter]
  have hday : { dAdd with notes := d.notes } = d := by
    rw [hdAdd]
  rw [hday]
  simp only [saveDayData, hdb2]
  rw [setDay_setDay, setDay_of_findDay db.days k d hd]

theorem c4_addItem_case (db : DB) (k : String) (ts : Int) (text : String)
    (iid0 : Option Nat) (d : DayData)
    (hwf : db.wf = true) (hd : findDay db.days k = some d) :
    ((GCmd.executeRun ⟨k, ts, .addItemCmd text iid0⟩ db).2.undoRun
      (GCmd.executeRun ⟨k, ts, .addItemCmd text iid0⟩ db).1).days = db.days := by
  have hfacts := wf_day_facts db k d hwf hd
  have hget : getDayData db k = some d := getDayData_of_wf db k d hwf hd
  set ord : Nat := (match d.checklist with
    | [] => 0
    | _ => maxOrder d.checklist + 1) with hord
  set item : ChecklistItem := ⟨db.nextId, text, false, ord⟩ with hitem
  have hbound : ∀ i ∈ d.checklist, i.order ≤ item.order := by
    intro i hi
    rw [hitem]
    simp only
    cases hcl : d.checklist with
    | nil => rw [hcl] at hi; simp at hi
    | cons x xs =>
      rw [hord, hcl]
      show i.order ≤ maxOrder (x :: xs) + 1
      have hle := le_maxOrder d.checklist i hi
      rw [hcl] at hle
      omega
  have hsortApp : sortedByOrder (d.checklist ++ [item]) = true :=
    sortedByOrder_append d.checklist item hfacts.1 hbound
  have hsortEq : sortByOrder (d.checklist ++ [item]) = d.checklist ++ [item] :=
    sortByOrder_of_sorted _ hsortApp
  set dAdd : DayData := { d with checklist := d.checklist ++ [item] } with hdAdd
  set db2 : DB := { db with nextId := db.nextId + 1 } with hdb2
  have hexec : GCmd.executeRun ⟨k, ts, .addItemCmd text iid0⟩ db =
      (saveDayData db2 k dAdd,
        ⟨k, ts, .addItemCmd text (some db.nextId)⟩) := by
    simp only [GCmd.executeRun, addChecklistItem, hget, hsortEq]
  rw [hexec]
  have hget1 : getDayData (saveDayData db2 k dAdd) k = some dAdd := by
    simp only [getDayData, saveDayData, findDay_setDay, Option.map_some,
      normalizeDay]
    rw [hdAdd]
    simp [normalizeDay, hsortEq]
  have hfilter : dAdd.checklist.filter (fun i => i.id ≠ db.nextId) = d.checklist := by
    rw [hdAdd]
    simp only
    rw [List.filter_append]
    have h1 : d.checklist.filter (fun i => i.id ≠ db.nextId) = d.checklist := by
      rw [List.filter_eq_self]
      intro i hi
      simpa using Nat.ne_of_lt (hfacts.2.2 i hi)
    have h2 : [item].filter (fun i => i.id ≠ db.nextId) = [] := by
      simp [hitem]
    rw [h1, h2, List.append_nil]
  simp only [GCmd.undoRun]
  rw [deleteChecklistItem]
  simp only [hget1]
  rw [hfilter]
  have hday : { dAdd with checklist := d.checklist } = d := by
    rw [hdAdd]
  rw [hday]
  simp only [saveDayData, hdb2]
  rw [setDay_setDay, setDay_of_findDay db.days k d hd]

/-- The edit commands' constructor arguments are snapshots the UI takes from
the current record; this predicate says the captured old value matches the
record (the delete/toggle/add commands capture during `execute` and need no
such premise). -/
def GCmd.capturedPreState (c : GCmd) (db : DB) : Bool :=
  match c.data with
  | .editNote nid oldC _ =>
    (match findDay db.days c.dateKey with
     | some d =>
       match d.notes.find? (fun n => n.id = nid) with
       | some n => n.content = oldC
       | none => true
     | none => true)
  | .editItem iid oldT _ =>
    (match findDay db.days c.dateKey with
     | some d =>
       match d.checklist.find? (fun i => i.id = iid) with
       | some i => i.text = oldT
       | none => true
     | none => true)
  | _ => true

/-- The catalog commands whose `execute(); undo()` is an exact field-by-field
inverse (the delete and reorder commands are not; see the counterexample). -/
def GCmd.simpleVariant (c : GCmd) : Bool :=
  match c.data with
  | .addNoteCmd .. => true
  | .editNote .. => true
  | .addItemCmd .. => true
  | .editItem .. => true
  | .toggleItem .. => true
  | _ => false

/-- **C4 (amended).** For the add-note, edit-note, add-checklist-item,
edit-checklist-item and toggle-checklist-item commands, `execute()`
immediately followed by `undo()` restores the day-record store field by
field (including checklist ordering), given a well-formed store (normalized
checklists, fresh id counter), an existing day record, and an edit command
that captured the record's true pre-state.  The delete commands and reorder
restore only equivalent content (fresh id appended at the end / renumbered
orders), per the counterexample. -/
theorem execute_undo_inverse_amended (db : DB) (c : GCmd)
    (hwf : db.wf = true)
    (hday : (findDay db.days c.dateKey).isSome = true)
    (hpre : c.capturedPreState db = true)
    (hvar : c.simpleVariant = true) :
    ((c.executeRun db).2.undoRun (c.executeRun db).1).days = db.days := by
  obtain ⟨d, hd⟩ := Option.isSome_iff_exists.mp hday
  cases c with
  | mk k ts data =>
    cases data with
    | addNoteCmd content nid0 => exact c4_addNote_case db k ts content nid0 d hwf hd
    | editNote nid oldC newC =>
      refine c4_editNote_case db k ts nid oldC newC d hwf hd ?_
      intro n0 hf
      simp only [GCmd.capturedPreState, hd, hf] at hpre
      exact of_decide_eq_true hpre
    | addItemCmd text iid0 => exact c4_addItem_case db k ts text iid0 d hwf hd
    | editItem iid oldT newT =>
      refine c4_editItem_case db k ts iid oldT newT d hwf hd ?_
      intro i0 hf
      simp only [GCmd.capturedPreState, hd, hf] at hpre
      exact of_decide_eq_true hpre
    | toggleItem iid => exact c4_toggle_case db k ts iid d hwf hd
    | deleteNoteCmd nid snap => simp [GCmd.simpleVariant] at hvar
    | deleteItemCmd iid snap => simp [GCmd.simpleVariant] at hvar
    | reorderCmd newOrder oldOrder => simp [GCmd.simpleVariant] at hvar

theorem execute_undo_inverse_amended_witness :
    ((GCmd.executeRun ⟨"d", 0, .editNote 1 "A" "B"⟩
        ⟨[("d", ⟨[⟨1, "A"⟩], [⟨2, "x", false, 0⟩]⟩)], 3⟩).2.undoRun
      (GCmd.executeRun ⟨"d", 0, .editNote 1 "A" "B"⟩
        ⟨[("d", ⟨[⟨1, "A"⟩], [⟨2, "x", false, 0⟩]⟩)], 3⟩).1).days =
      [("d", ⟨[⟨1, "A"⟩], [⟨2, "x", false, 0⟩]⟩)] :=
  execute_undo_inverse_amended ⟨[("d", ⟨[⟨1, "A"⟩], [⟨2, "x", false, 0⟩]⟩)], 3⟩
    ⟨"d", 0, .editNote 1 "A" "B"⟩ (by decide) (by decide) (by decide) (by decide)
